import Mathlib

/-!
Verification of the checkpointed pipeline of `audiosummarizer`
(`src/audiosummarizer/main.py` and `src/audiosummarizer/utils.py`),
as a shallow embedding in Lean 4.

External collaborators (filesystem probes, ffmpeg/ffprobe, the OSS SDK,
the transcription and summarization services) are modelled as oracle
parameters; everything that is control flow or data manipulation of the
repository itself is translated directly from the source.
-/

namespace AudioSummarizer

/-! ## Item-list loading (utils.py: the four load helpers) -/

/-- The blank test used by every load helper:
`not path or str(path).strip() == ""`. For a string both disjuncts reduce
to `path.strip() == ""`, which holds exactly when every character of the
string is whitespace. -/
def isBlank (s : String) : Bool := s.data.all (fun c => c.isWhitespace)

/-- Shared body of `AudioExtractor._load_video_list`,
`OSSUploader._load_file_list`, `AudioTranscriber._load_url_list` and
`TextSummarizer._load_text_file_paths`: keep only non-blank entries,
in their original order, appending them to a fresh list. -/
def loadFilter (xs : List String) : List String :=
  xs.filter (fun s => !(isBlank s))

/-- Count of dropped entries as logged by `_load_file_list`
(`len(file_list) - len(filtered_list)`). -/
def droppedCount (xs : List String) : Nat :=
  xs.length - (loadFilter xs).length

/-- The index a retained entry ends up at after `loadFilter`: the number of
non-blank entries strictly before it. -/
def newIndex (xs : List String) (i : Nat) : Nat :=
  (loadFilter (xs.take i)).length

/-- `AudioExtractor._load_video_list`: `none` models a missing or
unparsable input JSON (the method then returns `False`); otherwise the
parsed array is blank-filtered. -/
def load_video_list (raw : Option (List String)) : Option (List String) :=
  raw.map loadFilter

/-- `OSSUploader._load_file_list` (and the same shape in
`_load_url_list` / `_load_text_file_paths`): a missing/unparsable/non-list
JSON yields `[]`, otherwise the blank-filtered array. -/
def load_file_list (raw : Option (List String)) : List String :=
  match raw with
  | none => []
  | some xs => loadFilter xs

/-! ## Artifact naming (the Python format string for idx+1 padded to 3) -/

/-- Python `%03d` formatting (for arguments below 1000 it left-pads with
zeros to width 3, above that it prints the full number). -/
def zeroPad3 (n : Nat) : String :=
  if n < 10 then "00" ++ toString n
  else if n < 100 then "0" ++ toString n
  else toString n

/-- Audio artifact name from `_extract_audio`: idx+1 zero-padded, `.mp3`. -/
def audioFilename (idx : Nat) : String := zeroPad3 (idx + 1) ++ ".mp3"

/-- OSS object key from `_upload_single_file`:
`audios/` then idx+1 zero-padded then the file's extension. -/
def ossObjectName (idx : Nat) (ext : String) : String :=
  "audios/" ++ zeroPad3 (idx + 1) ++ ext

/-- Text artifact name used throughout `AudioTranscriber`. -/
def textFilename (idx : Nat) : String := zeroPad3 (idx + 1) ++ ".txt"

/-- Summary artifact name used throughout `TextSummarizer`. -/
def summaryFilename (idx : Nat) : String := zeroPad3 (idx + 1) ++ ".md"

/-- Python `a in b` on strings: `a` occurs as a contiguous substring of
`b`. -/
def strIn (a b : String) : Bool := decide (a.data <:+: b.data)

/-! ## AudioExtractor (utils.py lines 426-878) -/

/-- Outcomes of the external probes and calls made by `_extract_audio`
for one item: suffix test, existence checks, `_check_audio_correct`
verdicts, deletion of a stale artifact, and the ffmpeg invocation. -/
structure ExtractEnv where
  isAudioExt : Bool
  sourceExists : Bool
  priorExists : Bool
  priorValid : Bool
  deleteOk : Bool
  timedOut : Bool
  ffmpegOk : Bool
  extractedValid : Bool
deriving DecidableEq, Repr

/-- The tuple returned by `_extract_audio`
(idx, success, message, audio path; sizes and durations omitted). -/
structure ExtractResult where
  idx : Nat
  success : Bool
  message : String
  audioPath : String
deriving DecidableEq, Repr

/-- `AudioExtractor._extract_audio`, branch for branch. -/
def extract_audio (env : ExtractEnv) (idx : Nat) (videoPath : String)
    (audioDir : String) : ExtractResult :=
  if env.isAudioExt then
    if env.sourceExists then
      ⟨idx, true, "输入为音频，跳过", videoPath⟩
    else
      ⟨idx, false, "输入音频文件不存在", ""⟩
  else
    let audioPath := audioDir ++ "/" ++ audioFilename idx
    if env.priorExists && env.priorValid then
      ⟨idx, true, "已存在且正确（时长差异<5秒）", audioPath⟩
    else if env.priorExists && !env.deleteOk then
      ⟨idx, false, "无法删除不正确的音频文件", ""⟩
    else if env.timedOut then
      ⟨idx, false, "超时", ""⟩
    else if !env.ffmpegOk then
      ⟨idx, false, "ffmpeg错误", ""⟩
    else if env.extractedValid then
      ⟨idx, true, "提取成功", audioPath⟩
    else
      ⟨idx, false, "提取后验证失败", ""⟩

/-- The mutable state of the `as_completed` collection loop in
`process_videos`: the idx-to-path map of successful extractions and the
three counters. -/
structure ExtractAgg where
  extractedMap : Nat → Option String
  successCount : Nat
  failedCount : Nat
  skippedCount : Nat

attribute [ext] ExtractAgg

def initExtractAgg : ExtractAgg := ⟨fun _ => none, 0, 0, 0⟩

/-- One iteration of the collection loop (utils.py lines 778-831),
written field by field: skip messages bump the skipped counter, other
successes the success counter, failures the failed counter; a successful
result with a non-empty path is recorded in `extracted_map` under its
index. -/
def extractCollect (st : ExtractAgg) (r : ExtractResult) : ExtractAgg :=
  { extractedMap :=
      if r.success && !(r.audioPath == "") then
        fun j => if j = r.idx then some r.audioPath else st.extractedMap j
      else st.extractedMap
    successCount := st.successCount +
      (if r.success && !(strIn "输入为音频" r.message)
          && !(strIn "已存在且正确" r.message) then 1 else 0)
    failedCount := st.failedCount + (if r.success then 0 else 1)
    skippedCount := st.skippedCount +
      (if r.success && (strIn "输入为音频" r.message
          || strIn "已存在且正确" r.message) then 1 else 0) }

/-- The per-item results of one `process_videos` run, in task order
(`tasks = [(i, path) for i, path in enumerate(self.video_paths)]`). -/
def extractResults (videoPaths : List String) (env : Nat → ExtractEnv)
    (audioDir : String) : List ExtractResult :=
  (List.range videoPaths.length).map
    (fun i => extract_audio (env i) i (videoPaths.getD i "") audioDir)

/-- The collection-loop state after all futures have been drained. -/
def extractAggOf (videoPaths : List String) (env : Nat → ExtractEnv)
    (audioDir : String) : ExtractAgg :=
  (extractResults videoPaths env audioDir).foldl extractCollect initExtractAgg

/-- The output JSON written by `process_videos` (lines 833-850): one slot
per loaded path, the extracted path where `extracted_map` has one, the
empty string otherwise. -/
def extractOutputList (n : Nat) (m : Nat → Option String) : List String :=
  (List.range n).map (fun idx => (m idx).getD "")

/-- `AudioExtractor.process_videos`: load failure or output-write failure
give `False`; otherwise `True` is returned regardless of per-item
failures, together with the persisted output list. -/
def process_videos (raw : Option (List String)) (env : Nat → ExtractEnv)
    (audioDir : String) (writeOk : Bool) : Bool × Option (List String) :=
  match load_video_list raw with
  | none => (false, none)
  | some videoPaths =>
    let st := extractAggOf videoPaths env audioDir
    let out := extractOutputList videoPaths.length st.extractedMap
    if writeOk then (true, some out) else (false, none)

/-! ## OSSUploader (utils.py lines 882-1196) -/

/-- Outcomes of the external calls made by `_upload_single_file` for one
item: local existence, the `skip_exists` flag, remote existence plus the
content-hash comparison, the upload call, and the signed URL the SDK
returns. -/
structure UploadEnv where
  localExists : Bool
  skipExists : Bool
  remoteExists : Bool
  remoteMatch : Bool
  putOk : Bool
  signedUrl : String
deriving DecidableEq, Repr

/-- The tuple returned by `_upload_single_file`
(idx, success, message, url). -/
structure UploadResult where
  idx : Nat
  success : Bool
  message : String
  url : String
deriving DecidableEq, Repr

/-- `OSSUploader._upload_single_file`, branch for branch (a failing
existence check on OSS merely falls through to the normal upload, which
the `putOk` flag already covers). -/
def upload_single_file (env : UploadEnv) (idx : Nat) : UploadResult :=
  if !env.localExists then
    ⟨idx, false, "本地文件不存在", ""⟩
  else if env.skipExists && env.remoteExists && env.remoteMatch then
    ⟨idx, true, "文件已存在且匹配，跳过上传", env.signedUrl⟩
  else if env.putOk then
    ⟨idx, true, "上传成功", env.signedUrl⟩
  else
    ⟨idx, false, "上传失败", ""⟩

/-- The mutable state of the collection loop in `upload_files`: the URL
list (pre-sized to the total and written by index) and the counters. -/
structure UploadAgg where
  uploadedUrls : List String
  successCount : Nat
  failedCount : Nat
  skippedCount : Nat
deriving DecidableEq, Repr

attribute [ext] UploadAgg

/-- One iteration of the collection loop (utils.py lines 1091-1132),
written field by field: on success the URL is stored at the result's own
index (`self.uploaded_urls[idx] = url`) and the skip or success counter
is bumped; on failure only the failed counter moves. -/
def uploadCollect (st : UploadAgg) (r : UploadResult) : UploadAgg :=
  { uploadedUrls :=
      if r.success then st.uploadedUrls.set r.idx r.url else st.uploadedUrls
    successCount := st.successCount +
      (if r.success && !(strIn "跳过上传" r.message) then 1 else 0)
    failedCount := st.failedCount + (if r.success then 0 else 1)
    skippedCount := st.skippedCount +
      (if r.success && strIn "跳过上传" r.message then 1 else 0) }

/-- Collection-loop state after consuming the futures in the given
arrival order, starting from `[""] * total`. -/
def uploadAggFrom (n : Nat) (arrivals : List UploadResult) : UploadAgg :=
  arrivals.foldl uploadCollect ⟨List.replicate n "", 0, 0, 0⟩

/-- `OSSUploader.upload_files`: an empty loaded list is treated as a
stage failure; otherwise the URL list is persisted and `True` is
returned whenever the output JSON can be written, regardless of how many
items failed. `arrivals` is the completion order of the worker pool. -/
def upload_files (raw : Option (List String)) (arrivals : List UploadResult)
    (writeOk : Bool) : Bool × Option (List String) :=
  let fileList := load_file_list raw
  if fileList.isEmpty then (false, none)
  else
    let st := uploadAggFrom fileList.length arrivals
    if writeOk then (true, some st.uploadedUrls) else (false, none)

/-! ## AudioTranscriber (utils.py lines 1200-1744) -/

/-- `AudioTranscriber._split_urls_into_batches`: at most 100 URLs per
batch, with the number of target batches raised to the (clamped)
process count; the list is then sliced into contiguous runs of
`batch_size`. -/
def chunksGo : Nat → Nat → List String → List (List String)
  | 0, _, _ => []
  | _ + 1, _, [] => []
  | fuel + 1, size, x :: xs =>
    (x :: xs).take size :: chunksGo fuel size ((x :: xs).drop size)

/-- Python `urls[i:i+batch_size] for i in range(0, len(urls), batch_size)`
(the `size = 0` guard is dead code for the reachable inputs, where
`batch_size >= 1`). -/
def chunksOf (size : Nat) (xs : List String) : List (List String) :=
  if size = 0 then [] else chunksGo xs.length size xs

def split_urls_into_batches (num_processes : Nat) (urls : List String) :
    List (List String) :=
  let actual_processes := min num_processes urls.length
  let max_batch_size := 100
  let min_batches := actual_processes
  let num_batches :=
    max min_batches ((urls.length + max_batch_size - 1) / max_batch_size)
  let batch_size := (urls.length + num_batches - 1) / num_batches
  chunksOf batch_size urls

/-- Hex digit value, as used by percent-decoding (48, 55 and 87 are the
code-point offsets of the digit, upper-case and lower-case ranges). -/
def hexVal (c : Char) : Option Nat :=
  if c.isDigit then some (c.toNat - 48)
  else if 'A' ≤ c ∧ c ≤ 'F' then some (c.toNat - 55)
  else if 'a' ≤ c ∧ c ≤ 'f' then some (c.toNat - 87)
  else none

/-- Character-level model of `urllib.parse.unquote`: every valid `%XX`
escape becomes the character with code point `XX` (multi-byte UTF-8
escape sequences are not recombined; the URLs this program builds never
contain them). -/
def percentDecodeChars : List Char → List Char
  | '%' :: h1 :: h2 :: rest =>
    match hexVal h1, hexVal h2 with
    | some a, some b => Char.ofNat (a * 16 + b) :: percentDecodeChars rest
    | _, _ => '%' :: percentDecodeChars (h1 :: h2 :: rest)
  | c :: rest => c :: percentDecodeChars rest
  | [] => []

def percentDecode (s : String) : String :=
  String.mk (percentDecodeChars s.data)

/-- Python `url.split('?')[0]`: everything before the first question
mark (the whole string when there is none). -/
def stripQuery (url : String) : String :=
  String.mk (url.data.takeWhile (fun c => c ≠ '?'))

/-- Python `s.split('/')[-1]`: everything after the last slash (the
whole string when there is none). -/
def lastPathComponent (s : String) : String :=
  String.mk (s.data.foldl (fun acc c => if c = '/' then [] else acc ++ [c]) [])

/-- `AudioTranscriber._extract_filename_from_url`: strip the query
string, take the last path component, percent-decode it. -/
def extract_filename_from_url (url : String) : String :=
  let url_without_query := stripQuery url
  let filename := lastPathComponent url_without_query
  percentDecode filename

/-- One per-item result of a transcription job as the code consumes it:
its status, its string-valued fields in dict order (`file_url` among
them when present), an integer `index` field when present, and the
downloaded-and-formatted transcript text (the HTTP fetch and
`_format_transcription_result` are abstracted into this field). -/
structure TranscriptionResult where
  subtask_status : String
  fields : List (String × String)
  indexField : Option Int
  transcript : String
deriving DecidableEq, Repr

/-- Method 1 of `_match_transcription_to_url`: first index whose URL
matches by extracted filename or by mutual substring containment. -/
def method1Match (file_url : String) (batch_urls : List String) : Option Nat :=
  batch_urls.findIdx? (fun batch_url =>
    let batch_filename := extract_filename_from_url batch_url
    let transcription_filename := extract_filename_from_url file_url
    (!(batch_filename == "") && !(transcription_filename == "")
        && batch_filename == transcription_filename)
      || strIn batch_url file_url || strIn file_url batch_url)

/-- Method 3 of `_match_transcription_to_url`: scan the string fields in
dict order; for the first field longer than 10 characters that contains
some batch URL (stripped of its query string), return that URL's index. -/
def method3Match (fields : List (String × String))
    (batch_urls : List String) : Option Nat :=
  match fields with
  | [] => none
  | (_, value) :: rest =>
    if value.length > 10 then
      match batch_urls.findIdx?
          (fun bu => strIn (stripQuery bu) value) with
      | some i => some i
      | none => method3Match rest batch_urls
    else method3Match rest batch_urls

/-- `AudioTranscriber._match_transcription_to_url`: method 1 (file_url
identity), then method 2 (an in-range integer `index` field), then
method 3 (URL contained in some other string field), else -1. -/
def match_transcription_to_url (t : TranscriptionResult)
    (batch_urls : List String) : Int :=
  let m1 : Option Nat :=
    match t.fields.lookup "file_url" with
    | some file_url => method1Match file_url batch_urls
    | none => none
  match m1 with
  | some i => (i : Int)
  | none =>
    let m2 : Option Nat :=
      match t.indexField with
      | some idx =>
        if 0 ≤ idx && idx < (batch_urls.length : Int) then some idx.toNat
        else none
      | none => none
    match m2 with
    | some i => (i : Int)
    | none =>
      match method3Match t.fields batch_urls with
      | some i => (i : Int)
      | none => -1

/-- The body of the result loop in `_transcribe_batch` (lines
1324-1351): a successful subtask result goes to its matched index when
that is in range, otherwise into the first still-empty slot; failed
subtasks leave the slots untouched. -/
def collectTranscription (batch_urls : List String) (results : List String)
    (t : TranscriptionResult) : List String :=
  if t.subtask_status == "SUCCEEDED" then
    let result_str := t.transcript
    let matched := match_transcription_to_url t batch_urls
    if 0 ≤ matched && matched < (batch_urls.length : Int) then
      results.set matched.toNat result_str
    else
      match results.findIdx? (fun r => r == "") with
      | some i => results.set i result_str
      | none => results
  else results

/-- `AudioTranscriber._transcribe_batch` for a job that came back with
HTTP status OK: fold the returned per-item results, in the order the
service lists them, into a slot list pre-sized to the batch. -/
def transcribe_batch (batch_urls : List String)
    (apiResults : List TranscriptionResult) : List String :=
  apiResults.foldl (collectTranscription batch_urls)
    (List.replicate batch_urls.length "")

/-- The batch-result dictionary of `transcribe_audio` (lines 1548-1577):
each completed batch future stores its result list under its batch index,
`result_dict[batch_index] = batch_results`, in whatever order the futures
complete (a batch that raised stores `[""] * len(batch)`, which is just
another value of the pair's second component). -/
def transcribeDictStep (d : Nat → Option (List String))
    (p : Nat × List String) : Nat → Option (List String) :=
  fun k => if k = p.1 then some p.2 else d k

/-- Lines 1579-1582: the per-batch results are flattened in ascending
batch order, `for batch_index in sorted(result_dict.keys()):
transcribed_results.extend(result_dict[batch_index])`. -/
def assembleTranscripts (numBatches : Nat)
    (d : Nat → Option (List String)) : List String :=
  ((List.range numBatches).map (fun b => (d b).getD [])).flatten

/-- One iteration of the save loop of `transcribe_audio` (lines
1611-1640) acting on the `(success_count, failed_count)` pair: a skipped
index touches no counter, a blank transcription or a failed text-file
write bumps the failure counter, a successful write bumps the success
counter. -/
def transcribeSaveStep (skipped : Nat → Bool) (resultOf : Nat → String)
    (writeOk : Nat → Bool) (c : Nat × Nat) (idx : Nat) : Nat × Nat :=
  if skipped idx then c
  else if isBlank (resultOf idx) then (c.1, c.2 + 1)
  else if writeOk idx then (c.1 + 1, c.2)
  else (c.1, c.2 + 1)

/-- The `(success_count, failed_count)` counters after the save loop of
`transcribe_audio` has visited every index of the loaded URL list. -/
def transcribeCounters (n : Nat) (skipped : Nat → Bool)
    (resultOf : Nat → String) (writeOk : Nat → Bool) : Nat × Nat :=
  (List.range n).foldl (transcribeSaveStep skipped resultOf writeOk) (0, 0)

/-- The output JSON built by `transcribe_audio` (lines 1606-1640): one
slot per loaded URL; a skipped index keeps its existing text-file path,
an index whose transcription came back blank (or failed) gets the empty
string, and otherwise the path is emitted when the file write succeeds. -/
def transcribeOutputList (textDir : String) (urlList : List String)
    (skipped : Nat → Bool) (resultOf : Nat → String)
    (writeOk : Nat → Bool) : List String :=
  (List.range urlList.length).map (fun idx =>
    let text_path := textDir ++ "/" ++ textFilename idx
    if skipped idx then text_path
    else if isBlank (resultOf idx) then ""
    else if writeOk idx then text_path else "")

/-- `AudioTranscriber.transcribe_audio`: empty loaded list is a stage
failure; otherwise the path list is persisted and success reported
whenever the output JSON write works. -/
def transcribe_audio (raw : Option (List String)) (textDir : String)
    (skipped : Nat → Bool) (resultOf : Nat → String)
    (writeOk : Nat → Bool) (saveOk : Bool) : Bool × Option (List String) :=
  let url_list := load_file_list raw
  if url_list.isEmpty then (false, none)
  else
    let out := transcribeOutputList textDir url_list skipped resultOf writeOk
    if saveOk then (true, some out) else (false, none)

/-! ## TextSummarizer (utils.py lines 1748-2154) -/

/-- The tuple returned by `_summarize_single_text`:
(idx, task_success, message, summary_text); the message only feeds
logging and is omitted. -/
structure SummarizeResult where
  idx : Nat
  success : Bool
  text : String
deriving DecidableEq, Repr

/-- The mutable state of the summarizer's `as_completed` loop (lines
1978-1997): the `summaries` list pre-sized to `len(text_paths)` and
written by original index, plus the success/failed counters. -/
structure SummarizeAgg where
  summaries : List String
  successCount : Nat
  failedCount : Nat
deriving DecidableEq, Repr

attribute [ext] SummarizeAgg

/-- One iteration of the summarizer collection loop: a successful task
stores its text at its own index (`summaries[idx] = summary_text`) and
bumps the success counter; a failed or raising task only bumps the
failure counter. -/
def summarizeCollect (st : SummarizeAgg) (r : SummarizeResult) : SummarizeAgg :=
  { summaries := if r.success then st.summaries.set r.idx r.text else st.summaries
    successCount := st.successCount + (if r.success then 1 else 0)
    failedCount := st.failedCount + (if r.success then 0 else 1) }

/-- Collection-loop state after consuming the task futures in the given
arrival order, starting from `[""] * len(text_paths)` (line 1969). -/
def summarizeAggFrom (n : Nat) (arrivals : List SummarizeResult) : SummarizeAgg :=
  arrivals.foldl summarizeCollect ⟨List.replicate n "", 0, 0⟩

/-- The per-task results of one `summarize_texts` run in task-submission
order: `filtered_tasks` (lines 1924-1948) holds exactly the non-skipped
indices of the loaded list, in ascending order. -/
def summarizeArrivals (n : Nat) (skipped : Nat → Bool) (ok : Nat → Bool)
    (txt : Nat → String) : List SummarizeResult :=
  ((List.range n).filter (fun idx => !skipped idx)).map
    (fun idx => ⟨idx, ok idx, txt idx⟩)

/-- The output JSON built by `summarize_texts` (lines 2018-2047): same
shape as the transcriber's. -/
def summarizeOutputList (summaryDir : String) (textPaths : List String)
    (skipped : Nat → Bool) (summaryOf : Nat → String)
    (writeOk : Nat → Bool) : List String :=
  (List.range textPaths.length).map (fun idx =>
    let summary_path := summaryDir ++ "/" ++ summaryFilename idx
    if skipped idx then summary_path
    else if isBlank (summaryOf idx) then ""
    else if writeOk idx then summary_path else "")

/-- `TextSummarizer.summarize_texts`: empty loaded list is a stage
failure; otherwise the path list is persisted and success reported
whenever the output JSON write works. -/
def summarize_texts (raw : Option (List String)) (summaryDir : String)
    (skipped : Nat → Bool) (summaryOf : Nat → String)
    (writeOk : Nat → Bool) (saveOk : Bool) : Bool × Option (List String) :=
  let text_paths := load_file_list raw
  if text_paths.isEmpty then (false, none)
  else
    let out := summarizeOutputList summaryDir text_paths skipped summaryOf writeOk
    if saveOk then (true, some out) else (false, none)

/-! ## AVFinder (utils.py lines 18-422) -/

def SUPPORTED_EXTENSIONS : List String :=
  [".mp3", ".wav", ".flac", ".aac", ".ogg", ".m4a", ".wma", ".opus",
   ".mp4", ".avi", ".mkv", ".mov", ".wmv", ".flv", ".webm", ".m4v",
   ".mpg", ".mpeg"]

/-- One candidate file reached by the directory walk, with the probe
results the scan consults (duration in whole seconds; the source uses a
float, which only matters at the limit boundary and not for any claim
below). -/
structure ScanFile where
  path : String
  ext : String
  sizeMB : Nat
  duration : Option Nat
deriving DecidableEq, Repr

/-- The two optional limits of the `AVFinder` constructor (both are left
unset by `summarize()`). -/
structure FinderCfg where
  sizeLimit : Option Nat
  durationLimit : Option Nat
deriving DecidableEq, Repr

/-- `AVFinder._is_audio_video_file` on the lower-cased suffix. -/
def is_audio_video_file (f : ScanFile) : Bool :=
  SUPPORTED_EXTENSIONS.contains f.ext

/-- `AVFinder._check_file_limits`: a file passes unless a configured
limit is exceeded (an unobtainable duration passes). -/
def check_file_limits (cfg : FinderCfg) (f : ScanFile) : Bool :=
  (match cfg.sizeLimit with
   | some lim => !(decide (f.sizeMB > lim))
   | none => true)
  && (match cfg.durationLimit with
      | some lim =>
        match f.duration with
        | some d => !(decide (d > lim))
        | none => true
      | none => true)

/-- The audio-file list accumulated by `_scan_directory` over the
candidates it reaches. -/
def scanAudioFiles (cfg : FinderCfg) (files : List ScanFile) : List String :=
  (files.filter (fun f => is_audio_video_file f && check_file_limits cfg f)).map
    (fun f => f.path)

/-- `AVFinder.find_and_save`: first Bool is the return value, second is
whether the output JSON was written. With zero files found the method
returns `False` before ever calling `_save_to_json`. -/
def find_and_save (cfg : FinderCfg) (files : List ScanFile)
    (saveOk : Bool) : Bool × Bool :=
  let audio_files := scanAudioFiles cfg files
  if audio_files.length = 0 then (false, false)
  else if saveOk then (true, true) else (false, false)

/-! ## Orchestrator (main.py) -/

def STEP_INIT : Nat := 0
def STEP_FIND_FILES : Nat := 1
def STEP_EXTRACT_AUDIO : Nat := 2
def STEP_UPLOAD_OSS : Nat := 3
def STEP_TRANSCRIBE : Nat := 4
def STEP_SUMMARIZE : Nat := 5
def STEP_COMPLETE : Nat := 6

/-- One invocation's environment: the checkpoint value `_read_checkpoint`
returns (0 for a missing or unparsable file), whether the intermediates
directory exists, and the success of each stage processor call
(`audio_only = False`, checkpoint writes succeed). -/
structure RunConfig where
  checkpoint0 : Nat
  intermExists : Bool
  stageSuccess : Nat → Bool

/-- The observable state of one `summarize()` invocation: the in-memory
checkpoint variable, the stages whose processors were invoked, the
values written to `checkpoint.txt` in order, and the `exit()` code if
the run aborted. -/
structure OrchState where
  checkpoint : Nat
  stagesRun : List Nat
  writes : List Nat
  exitCode : Option Nat
deriving DecidableEq, Repr

/-- One stage guard of `summarize()` (main.py lines 250-396): skipped
when the checkpoint already covers it; on processor failure
`exit(1)`; on success `_update_checkpoint` reads the current value and
writes it plus one, and the local variable becomes the stage ordinal. -/
def stageStep (success : Nat → Bool) (st : OrchState) (n : Nat) : OrchState :=
  if st.exitCode.isSome then st
  else if st.checkpoint < n then
    if success n then
      { checkpoint := n
        stagesRun := st.stagesRun ++ [n]
        writes := st.writes ++ [st.checkpoint + 1]
        exitCode := none }
    else
      { st with stagesRun := st.stagesRun ++ [n], exitCode := some 1 }
  else st

/-- The checkpoint/intermediates initialization of `summarize()` (main.py
lines 200-214): a zero checkpoint (re)writes 0; a positive checkpoint is
kept only when the intermediates directory still exists, and otherwise
is reset to 0 and a 0 is written. -/
def initState (cfg : RunConfig) : OrchState :=
  if cfg.checkpoint0 = 0 then ⟨0, [], [0], none⟩
  else if cfg.intermExists then ⟨cfg.checkpoint0, [], [], none⟩
  else ⟨0, [], [0], none⟩

/-- `summarize()`: initialization, the five guarded stages in order, and
on reaching the end the completion marker `STEP_COMPLETE`. -/
def summarizeRun (cfg : RunConfig) : OrchState :=
  let st := (List.range' 1 5).foldl (stageStep cfg.stageSuccess) (initState cfg)
  if st.exitCode.isSome then st
  else { st with writes := st.writes ++ [STEP_COMPLETE] }

/-- The value `checkpoint.txt` holds after the run: the last write, or
the starting value when the run wrote nothing. -/
def persistedAfter (cfg : RunConfig) : Nat :=
  ((summarizeRun cfg).writes).getLastD cfg.checkpoint0

/-- The file each stage's processor is constructed to read from
(main.py lines 256-389). -/
def stageInputFile : Nat → String
  | 1 => "input_dir"
  | 2 => "intermediates/inputs.json"
  | 3 => "intermediates/audios.json"
  | 4 => "intermediates/oss_urls.json"
  | 5 => "intermediates/texts.json"
  | _ => ""

/-- The file each stage's processor is constructed to write to. -/
def stageOutputFile : Nat → String
  | 1 => "intermediates/inputs.json"
  | 2 => "intermediates/audios.json"
  | 3 => "intermediates/oss_urls.json"
  | 4 => "intermediates/texts.json"
  | 5 => "intermediates/summaries.json"
  | _ => ""

/-! ## Auxiliary predicates used by the statements -/

/-- A list of checkpoint values is non-decreasing. -/
def nondecreasing : List Nat → Bool
  | a :: b :: rest => decide (a ≤ b) && nondecreasing (b :: rest)
  | _ => true

/-- Invariant threaded through the stage loop: the write history so far
is monotone, its last persisted value is at most the in-memory
checkpoint, and the checkpoint never exceeds `STEP_COMPLETE`. -/
def orchInv (c0 : Nat) (st : OrchState) : Prop :=
  nondecreasing (c0 :: st.writes) = true
  ∧ (c0 :: st.writes).getLastD 0 ≤ st.checkpoint
  ∧ st.checkpoint ≤ 6

/-- A canonical pair of successful upload results, used in the
order-independence witness. -/
def uploadDemo (i : Nat) : UploadResult :=
  ⟨i, true, "上传成功", if i = 0 then "u0" else "u1"⟩

/-- The transcription result the external service hands back for the
batch URL at index j: a SUCCEEDED subtask whose `file_url` field carries
that URL, with transcript text `txt j`. -/
def serviceResult (urls : List String) (txt : Nat → String) (j : Nat) :
    TranscriptionResult :=
  ⟨"SUCCEEDED", [("file_url", urls.getD j "")], none, txt j⟩

/-! ## Helper lemmas -/

lemma nondecreasing_snoc (a x : Nat) (l : List Nat) :
    nondecreasing ((a :: l) ++ [x])
      = (nondecreasing (a :: l) && decide ((a :: l).getLastD 0 ≤ x)) := by
  induction l generalizing a with
  | nil => simp [nondecreasing]
  | cons b r ih =>
    rw [show nondecreasing ((a :: b :: r) ++ [x])
          = (decide (a ≤ b) && nondecreasing ((b :: r) ++ [x])) from rfl,
      ih b]
    simp [nondecreasing, List.getLastD_cons, Bool.and_assoc]

lemma stageStep_preserves (f : Nat → Bool) (c0 : Nat) (st : OrchState)
    (n : Nat) (h5 : n ≤ 5) (h : orchInv c0 st) :
    orchInv c0 (stageStep f st n) := by
  obtain ⟨hnd, hlast, hcp⟩ := h
  unfold stageStep
  split_ifs with he hlt hsucc
  · exact ⟨hnd, hlast, hcp⟩
  · refine ⟨?_, ?_, ?_⟩
    · show nondecreasing (c0 :: (st.writes ++ [st.checkpoint + 1])) = true
      rw [show c0 :: (st.writes ++ [st.checkpoint + 1])
            = (c0 :: st.writes) ++ [st.checkpoint + 1] from rfl,
        nondecreasing_snoc]
      simp only [hnd, Bool.true_and, decide_eq_true_eq]
      omega
    · show (c0 :: (st.writes ++ [st.checkpoint + 1])).getLastD 0 ≤ n
      rw [show c0 :: (st.writes ++ [st.checkpoint + 1])
            = (c0 :: st.writes) ++ [st.checkpoint + 1] from rfl,
        List.getLastD_concat]
      omega
    · show n ≤ 6
      omega
  · exact ⟨hnd, hlast, hcp⟩
  · exact ⟨hnd, hlast, hcp⟩

lemma initState_invariant (cfg : RunConfig) (h6 : cfg.checkpoint0 ≤ 6)
    (hi : cfg.intermExists = true ∨ cfg.checkpoint0 = 0) :
    orchInv cfg.checkpoint0 (initState cfg) := by
  unfold initState orchInv
  rcases hi with hi | hi
  · split_ifs with h0
    · simp [nondecreasing, h0]
    · simp [nondecreasing, List.getLastD_cons]
      omega
  · simp [hi, nondecreasing]

lemma summarizeRun_stagesRun (cfg : RunConfig) :
    (summarizeRun cfg).stagesRun
      = ((List.range' 1 5).foldl (stageStep cfg.stageSuccess)
          (initState cfg)).stagesRun := by
  simp only [summarizeRun]
  split_ifs <;> rfl

lemma foldl_stageStep_skip (f : Nat → Bool) (st : OrchState) (l : List Nat)
    (h : ∀ n ∈ l, n ≤ st.checkpoint) : l.foldl (stageStep f) st = st := by
  induction l with
  | nil => rfl
  | cons n rest ih =>
    have hn : n ≤ st.checkpoint := h n (by simp)
    have hstep : stageStep f st n = st := by
      unfold stageStep
      split_ifs with he hlt hsucc
      · rfl
      · omega
      · omega
      · rfl
    rw [List.foldl_cons, hstep]
    exact ih (fun m hm => h m (by simp [hm]))

lemma stagesRun_mono (f : Nat → Bool) (l : List Nat) (st : OrchState) :
    ∃ t, (l.foldl (stageStep f) st).stagesRun = st.stagesRun ++ t := by
  induction l generalizing st with
  | nil => exact ⟨[], (List.append_nil _).symm⟩
  | cons n rest ih =>
    obtain ⟨t1, ht1⟩ := ih (stageStep f st n)
    have hstep : ∃ t0, (stageStep f st n).stagesRun = st.stagesRun ++ t0 := by
      unfold stageStep
      split_ifs
      · exact ⟨[], (List.append_nil _).symm⟩
      · exact ⟨[n], rfl⟩
      · exact ⟨[n], rfl⟩
      · exact ⟨[], (List.append_nil _).symm⟩
    obtain ⟨t0, ht0⟩ := hstep
    exact ⟨t0 ++ t1, by rw [List.foldl_cons, ht1, ht0, List.append_assoc]⟩

lemma stageStep_stagesRun_of_lt (f : Nat → Bool) (st : OrchState) (n : Nat)
    (he : st.exitCode = none) (hlt : st.checkpoint < n) :
    (stageStep f st n).stagesRun = st.stagesRun ++ [n] := by
  unfold stageStep
  split_ifs <;> first | rfl | omega | simp_all

lemma initState_of_interm (cfg : RunConfig) (hi : cfg.intermExists = true) :
    initState cfg
      = ⟨cfg.checkpoint0, [],
          if cfg.checkpoint0 = 0 then [0] else [], none⟩ := by
  unfold initState
  split_ifs with h0 <;> simp_all

lemma first_stage_attempted (cfg' : RunConfig) (j : Nat) (h1 : 1 ≤ j)
    (h5 : j ≤ 5) (hc : cfg'.checkpoint0 = j - 1)
    (hi : cfg'.intermExists = true) :
    (summarizeRun cfg').stagesRun.headD 0 = j := by
  rw [summarizeRun_stagesRun]
  have hsplit : List.range' 1 5
      = List.range' 1 (j - 1) ++ j :: List.range' (j + 1) (5 - j) := by
    interval_cases j <;> rfl
  rw [hsplit, List.foldl_append]
  have hinit := initState_of_interm cfg' hi
  have hskip : (List.range' 1 (j - 1)).foldl (stageStep cfg'.stageSuccess)
      (initState cfg') = initState cfg' := by
    refine foldl_stageStep_skip _ _ _ (fun n hn => ?_)
    rw [List.mem_range'_1] at hn
    rw [hinit]
    show n ≤ cfg'.checkpoint0
    omega
  rw [hskip, List.foldl_cons]
  have hrun := stageStep_stagesRun_of_lt cfg'.stageSuccess (initState cfg') j
    (by rw [hinit]) (by rw [hinit]; show cfg'.checkpoint0 < j; omega)
  have hsr0 : (initState cfg').stagesRun = [] := by rw [hinit]
  obtain ⟨t, ht⟩ := stagesRun_mono cfg'.stageSuccess
    (List.range' (j + 1) (5 - j)) (stageStep cfg'.stageSuccess (initState cfg') j)
  rw [ht, hrun, hsr0]
  rfl

lemma loadFilter_getD (xs : List String) (i : Nat) (h : i < xs.length)
    (hb : isBlank (xs.getD i "") = false) :
    (loadFilter xs)[newIndex xs i]? = some (xs.getD i "") := by
  induction xs generalizing i with
  | nil => simp at h
  | cons x rest ih =>
    cases i with
    | zero =>
      simp only [List.getD_cons_zero] at hb ⊢
      simp [loadFilter, newIndex, List.filter_cons, hb]
    | succ j =>
      have hj : j < rest.length := by simpa using h
      have hb' : isBlank (rest.getD j "") = false := by simpa using hb
      have hrec := ih j hj hb'
      by_cases hx : isBlank x
      · simpa [loadFilter, newIndex, List.filter_cons, hx] using hrec
      · simpa [loadFilter, newIndex, List.filter_cons, hx] using hrec

lemma newIndex_le (xs : List String) (i : Nat) : newIndex xs i ≤ i := by
  unfold newIndex loadFilter
  calc ((xs.take i).filter _).length ≤ (xs.take i).length :=
        List.length_filter_le _ _
    _ ≤ i := List.length_take_le _ _

lemma foldl_uploadCollect_length (rs : List UploadResult) (st : UploadAgg) :
    (rs.foldl uploadCollect st).uploadedUrls.length
      = st.uploadedUrls.length := by
  induction rs generalizing st with
  | nil => rfl
  | cons r rest ih =>
    rw [List.foldl_cons, ih]
    simp only [uploadCollect]
    split_ifs <;> simp

lemma extract_audio_idx (env : ExtractEnv) (idx : Nat) (videoPath : String)
    (audioDir : String) : (extract_audio env idx videoPath audioDir).idx = idx := by
  unfold extract_audio
  split_ifs <;> rfl

lemma extractCollect_map_apply (st : ExtractAgg) (r : ExtractResult) (i : Nat) :
    (extractCollect st r).extractedMap i
      = if (r.success && !(r.audioPath == "")) = true then
          (if i = r.idx then some r.audioPath else st.extractedMap i)
        else st.extractedMap i := by
  by_cases h : (r.success && !(r.audioPath == "")) = true
  · simp [extractCollect, h]
  · simp [extractCollect, h]

lemma foldl_extractCollect_failedCount (rs : List ExtractResult)
    (st : ExtractAgg) :
    (rs.foldl extractCollect st).failedCount
      = st.failedCount + rs.countP (fun r => !r.success) := by
  induction rs generalizing st with
  | nil => simp
  | cons r rest ih =>
    rw [List.foldl_cons, ih]
    simp only [extractCollect, List.countP_cons]
    cases hr : r.success with
    | false => simp [hr]; omega
    | true => simp [hr]

lemma foldl_extractCollect_map (g : Nat → ExtractResult)
    (hidx : ∀ j, (g j).idx = j) :
    ∀ (b a : Nat) (st : ExtractAgg) (i : Nat),
      (((List.range' a b).map g).foldl extractCollect st).extractedMap i
        = if a ≤ i ∧ i < a + b
              ∧ ((g i).success && !((g i).audioPath == "")) = true
          then some (g i).audioPath
          else st.extractedMap i := by
  intro b
  induction b with
  | zero =>
    intro a st i
    rw [if_neg (by rintro ⟨h1, h2, _⟩; omega)]
    rfl
  | succ b ih =>
    intro a st i
    rw [List.range'_succ, List.map_cons, List.foldl_cons,
      ih (a + 1) (extractCollect st (g a)) i, extractCollect_map_apply,
      hidx a]
    by_cases hia : i = a
    · subst hia
      rw [if_neg (by rintro ⟨h1, _, _⟩; omega)]
      by_cases hp : ((g i).success && !((g i).audioPath == "")) = true
      · rw [if_pos hp, if_pos rfl, if_pos ⟨le_refl i, by omega, hp⟩]
      · rw [if_neg hp, if_neg (by rintro ⟨_, _, hc⟩; exact hp hc)]
    · by_cases hin : a + 1 ≤ i ∧ i < a + 1 + b
          ∧ ((g i).success && !((g i).audioPath == "")) = true
      · rw [if_pos hin, if_pos ⟨by omega, by omega, hin.2.2⟩]
      · rw [if_neg hin]
        have hout : ¬(a ≤ i ∧ i < a + (b + 1)
            ∧ ((g i).success && !((g i).audioPath == "")) = true) := by
          rintro ⟨h1, h2, h3⟩
          exact hin ⟨by omega, by omega, h3⟩
        rw [if_neg hout]
        by_cases hp : ((g a).success && !((g a).audioPath == "")) = true
        · rw [if_pos hp, if_neg hia]
        · rw [if_neg hp]

lemma uploadCollect_length (st : UploadAgg) (r : UploadResult) :
    (uploadCollect st r).uploadedUrls.length = st.uploadedUrls.length := by
  simp only [uploadCollect]
  split_ifs <;> simp

lemma uploadCollect_comm (z : UploadAgg) (x y : UploadResult)
    (h : x.idx ≠ y.idx ∨ x = y) :
    uploadCollect (uploadCollect z x) y = uploadCollect (uploadCollect z y) x := by
  rcases h with h | rfl
  · refine UploadAgg.ext ?_ ?_ ?_ ?_
    · show (if y.success then
          (if x.success then z.uploadedUrls.set x.idx x.url
           else z.uploadedUrls).set y.idx y.url
        else if x.success then z.uploadedUrls.set x.idx x.url
          else z.uploadedUrls)
        = (if x.success then
            (if y.success then z.uploadedUrls.set y.idx y.url
             else z.uploadedUrls).set x.idx x.url
          else if y.success then z.uploadedUrls.set y.idx y.url
            else z.uploadedUrls)
      by_cases hx : x.success <;> by_cases hy : y.success <;>
        simp [hx, hy, List.set_comm _ _ _ h]
    · show z.successCount + _ + _ = z.successCount + _ + _
      omega
    · show z.failedCount + _ + _ = z.failedCount + _ + _
      omega
    · show z.skippedCount + _ + _ = z.skippedCount + _ + _
      omega
  · rfl

lemma foldl_uploadCollect_get (g : Nat → UploadResult)
    (hidx : ∀ j, (g j).idx = j) :
    ∀ (b a : Nat) (st : UploadAgg) (i : Nat), i < st.uploadedUrls.length →
      (((List.range' a b).map g).foldl uploadCollect st).uploadedUrls[i]?
        = if a ≤ i ∧ i < a + b then
            (if (g i).success = true then some (g i).url
             else st.uploadedUrls[i]?)
          else st.uploadedUrls[i]? := by
  intro b
  induction b with
  | zero =>
    intro a st i hi
    rw [if_neg (by rintro ⟨h1, h2⟩; omega)]
    rfl
  | succ b ih =>
    intro a st i hi
    have hset : (uploadCollect st (g a)).uploadedUrls[i]?
        = if (g a).success = true ∧ i = a then some (g a).url
          else st.uploadedUrls[i]? := by
      simp only [uploadCollect, hidx a]
      by_cases hs : (g a).success
      · rw [if_pos hs]
        by_cases hia : i = a
        · subst hia
          rw [if_pos ⟨hs, rfl⟩, List.getElem?_set_eq_of_lt _ hi]
        · rw [if_neg (by rintro ⟨_, hh⟩; exact hia hh),
            List.getElem?_set_ne (fun hh => hia hh.symm)]
      · rw [if_neg (by simp [hs]), if_neg (by rintro ⟨hh, _⟩; exact hs hh)]
    rw [List.range'_succ, List.map_cons, List.foldl_cons,
      ih (a + 1) (uploadCollect st (g a)) i
        (by rw [uploadCollect_length]; exact hi)]
    rw [hset]
    by_cases hia : i = a
    · have hC1 : ¬(a + 1 ≤ i ∧ i < a + 1 + b) := by omega
      have hC4 : a ≤ i ∧ i < a + (b + 1) := by omega
      rw [if_neg hC1, if_pos hC4]
      have hgi : g i = g a := by rw [hia]
      by_cases hs : (g a).success
      · rw [if_pos ⟨hs, hia⟩, hgi, if_pos hs]
      · rw [if_neg (fun hh => hs hh.1), hgi, if_neg hs]
    · have hD : ¬((g a).success = true ∧ i = a) := fun hh => hia hh.2
      rw [if_neg hD]
      by_cases hin : a + 1 ≤ i ∧ i < a + 1 + b
      · rw [if_pos hin, if_pos (show a ≤ i ∧ i < a + (b + 1) by omega)]
      · have hC4 : ¬(a ≤ i ∧ i < a + (b + 1)) := by omega
        rw [if_neg hin, if_neg hC4]

lemma chunksGo_flatten (size : Nat) (hs : 1 ≤ size) :
    ∀ (fuel : Nat) (xs : List String), xs.length ≤ fuel →
      (chunksGo fuel size xs).flatten = xs := by
  intro fuel
  induction fuel with
  | zero =>
    intro xs h
    cases xs with
    | nil => rfl
    | cons x rest => simp at h
  | succ fuel ih =>
    intro xs h
    cases xs with
    | nil => rfl
    | cons x rest =>
      show ((x :: rest).take size
          :: chunksGo fuel size ((x :: rest).drop size)).flatten = x :: rest
      rw [List.flatten_cons, ih ((x :: rest).drop size)
        (by simp only [List.length_drop, List.length_cons] at h ⊢; omega)]
      exact List.take_append_drop size (x :: rest)

lemma chunksGo_mem (size : Nat) (hs : 1 ≤ size) :
    ∀ (fuel : Nat) (xs : List String),
      ∀ b ∈ chunksGo fuel size xs, b.length ≤ size ∧ b ≠ [] := by
  intro fuel
  induction fuel with
  | zero => intro xs b hb; cases xs <;> simp [chunksGo] at hb
  | succ fuel ih =>
    intro xs b hb
    cases xs with
    | nil => simp [chunksGo] at hb
    | cons x rest =>
      rw [show chunksGo (fuel + 1) size (x :: rest)
          = (x :: rest).take size
            :: chunksGo fuel size ((x :: rest).drop size) from rfl] at hb
      rcases List.mem_cons.mp hb with hb | hb
      · subst hb
        constructor
        · rw [List.length_take]
          exact min_le_left _ _
        · obtain ⟨s, rfl⟩ : ∃ s, size = s + 1 := ⟨size - 1, by omega⟩
          simp [List.take_succ_cons]
      · exact ih _ b hb

lemma findIdx?_spec (p : String → Bool) :
    ∀ (l : List String) (j s : Nat), j < l.length →
      p (l.getD j "") = true →
      (∀ i, i < j → p (l.getD i "") = false) →
      List.findIdx? p l s = some (s + j) := by
  intro l
  induction l with
  | nil => intro j s hj _ _; simp at hj
  | cons x rest ih =>
    intro j s hj hpj hlt
    cases j with
    | zero =>
      rw [List.findIdx?_cons, if_pos (by simpa using hpj)]
      simp
    | succ k =>
      have hx : p x = false := by simpa using hlt 0 (Nat.succ_pos k)
      rw [List.findIdx?_cons, if_neg (by simp [hx]),
        ih k (s + 1) (by simpa using hj) (by simpa using hpj)
          (fun i hi => by simpa using hlt (i + 1) (by omega))]
      have hadd : s + 1 + k = s + (k + 1) := by omega
      rw [hadd]

lemma match_serviceResult (urls : List String) (txt : Nat → String) (j : Nat)
    (hj : j < urls.length)
    (hfn : ∀ i, i < urls.length →
      extract_filename_from_url (urls.getD i "") ≠ "")
    (hdist : ∀ i, i < urls.length → ∀ k, k < urls.length → i ≠ k →
      extract_filename_from_url (urls.getD i "")
          ≠ extract_filename_from_url (urls.getD k "")
        ∧ strIn (urls.getD i "") (urls.getD k "") = false) :
    match_transcription_to_url (serviceResult urls txt j) urls = (j : Int) := by
  have hm1 : method1Match (urls.getD j "") urls = some j := by
    rw [method1Match]
    have hspec := findIdx?_spec
      (fun batch_url =>
        (!(extract_filename_from_url batch_url == "")
            && !(extract_filename_from_url (urls.getD j "") == "")
            && (extract_filename_from_url batch_url
                  == extract_filename_from_url (urls.getD j "")))
          || strIn batch_url (urls.getD j "")
          || strIn (urls.getD j "") batch_url)
      urls j 0 hj ?_ ?_
    · rw [hspec, Nat.zero_add]
    · show ((!(extract_filename_from_url (urls.getD j "") == "")
            && !(extract_filename_from_url (urls.getD j "") == "")
            && (extract_filename_from_url (urls.getD j "")
                  == extract_filename_from_url (urls.getD j "")))
          || strIn (urls.getD j "") (urls.getD j "")
          || strIn (urls.getD j "") (urls.getD j "")) = true
      have h1 : (extract_filename_from_url (urls.getD j "") == "") = false := by
        rw [beq_eq_false_iff_ne]
        exact hfn j hj
      rw [h1, beq_self_eq_true]
      rfl
    · intro i hi
      have hik : i ≠ j := by omega
      have hd1 := (hdist i (by omega) j hj hik).1
      have hd2 := (hdist i (by omega) j hj hik).2
      have hd3 := (hdist j hj i (by omega) (Ne.symm hik)).2
      have he : (extract_filename_from_url (urls.getD i "")
          == extract_filename_from_url (urls.getD j "")) = false := by
        rw [beq_eq_false_iff_ne]
        exact hd1
      show ((!(extract_filename_from_url (urls.getD i "") == "")
            && !(extract_filename_from_url (urls.getD j "") == "")
            && (extract_filename_from_url (urls.getD i "")
                  == extract_filename_from_url (urls.getD j "")))
          || strIn (urls.getD i "") (urls.getD j "")
          || strIn (urls.getD j "") (urls.getD i "")) = false
      rw [he, hd2, hd3]
      simp only [Bool.and_false, Bool.or_false, Bool.false_or]
  simp only [match_transcription_to_url, serviceResult, List.lookup,
    beq_self_eq_true, if_pos]
  rw [hm1]

lemma setFold_length (ps : List (Nat × String)) (init : List String) :
    (ps.foldl (fun out pr => out.set pr.1 pr.2) init).length = init.length := by
  induction ps generalizing init with
  | nil => rfl
  | cons pr rest ih => rw [List.foldl_cons, ih, List.length_set]

lemma setFold_get_not_mem (ps : List (Nat × String)) (init : List String)
    (i : Nat) (h : ∀ pr ∈ ps, pr.1 ≠ i) :
    (ps.foldl (fun out pr => out.set pr.1 pr.2) init)[i]? = init[i]? := by
  induction ps generalizing init with
  | nil => rfl
  | cons pr rest ih =>
    rw [List.foldl_cons, ih _ (fun q hq => h q (by simp [hq])),
      List.getElem?_set_ne (h pr (by simp))]

lemma setFold_get_mem (ps : List (Nat × String)) (init : List String)
    (i : Nat) (v : String) (hnd : (ps.map Prod.fst).Nodup)
    (hmem : (i, v) ∈ ps) (hi : i < init.length) :
    (ps.foldl (fun out pr => out.set pr.1 pr.2) init)[i]? = some v := by
  induction ps generalizing init with
  | nil => simp at hmem
  | cons pr rest ih =>
    rw [List.map_cons, List.nodup_cons] at hnd
    rcases List.mem_cons.mp hmem with hpr | hpr
    · subst hpr
      have hni : i ∉ List.map Prod.fst rest := hnd.1
      rw [List.foldl_cons, setFold_get_not_mem rest _ i
        (fun q hq heq =>
          hni (by rw [← heq]; exact List.mem_map_of_mem Prod.fst hq)),
        List.getElem?_set_eq_of_lt _ hi]
    · rw [List.foldl_cons]
      exact ih (init.set pr.1 pr.2) hnd.2 hpr
        (by rw [List.length_set]; exact hi)

lemma foldl_collect_service (urls : List String) (txt : Nat → String) :
    ∀ (ps : List Nat) (init : List String),
      (∀ j ∈ ps, j < urls.length) →
      (∀ j ∈ ps, match_transcription_to_url (serviceResult urls txt j) urls
        = (j : Int)) →
      ps.foldl
          (fun res j => collectTranscription urls res (serviceResult urls txt j))
          init
        = ps.foldl (fun out j => out.set j (txt j)) init := by
  intro ps
  induction ps with
  | nil => intro init _ _; rfl
  | cons j rest ih =>
    intro init hps hmatch
    rw [List.foldl_cons, List.foldl_cons]
    have hstep : collectTranscription urls init (serviceResult urls txt j)
        = init.set j (txt j) := by
      simp only [collectTranscription]
      rw [hmatch j (List.mem_cons_self j rest)]
      rw [if_pos (show ((serviceResult urls txt j).subtask_status
          == "SUCCEEDED") = true from rfl)]
      rw [if_pos (show (decide ((0 : Int) ≤ (j : Int))
          && decide ((j : Int) < (urls.length : Int))) = true from by
        have := hps j (List.mem_cons_self j rest)
        simp
        exact_mod_cast this)]
      rw [Int.toNat_natCast]
      rfl
    rw [hstep]
    exact ih _ (fun q hq => hps q (by simp [hq]))
      (fun q hq => hmatch q (by simp [hq]))

lemma transcribe_batch_service (urls : List String) (txt : Nat → String)
    (ps : List Nat) (hps : ∀ j ∈ ps, j < urls.length)
    (hmatch : ∀ j ∈ ps,
      match_transcription_to_url (serviceResult urls txt j) urls = (j : Int)) :
    transcribe_batch urls (ps.map (serviceResult urls txt))
      = (ps.map (fun j => (j, txt j))).foldl
          (fun out pr => out.set pr.1 pr.2)
          (List.replicate urls.length "") := by
  rw [transcribe_batch, List.foldl_map, List.foldl_map]
  exact foldl_collect_service urls txt ps _ hps hmatch

lemma upload_single_file_idx (env : UploadEnv) (idx : Nat) :
    (upload_single_file env idx).idx = idx := by
  unfold upload_single_file
  split_ifs <;> rfl

lemma foldl_uploadCollect_failedCount (rs : List UploadResult)
    (st : UploadAgg) :
    (rs.foldl uploadCollect st).failedCount
      = st.failedCount + rs.countP (fun r => !r.success) := by
  induction rs generalizing st with
  | nil => simp
  | cons r rest ih =>
    rw [List.foldl_cons, ih]
    simp only [uploadCollect, List.countP_cons]
    cases hr : r.success with
    | false => simp [hr]; omega
    | true => simp [hr]

lemma extractCollect_comm (z : ExtractAgg) (x y : ExtractResult)
    (h : x.idx ≠ y.idx ∨ x = y) :
    extractCollect (extractCollect z x) y
      = extractCollect (extractCollect z y) x := by
  rcases h with h | rfl
  · refine ExtractAgg.ext ?_ ?_ ?_ ?_
    · funext j
      rw [extractCollect_map_apply, extractCollect_map_apply,
        extractCollect_map_apply, extractCollect_map_apply]
      by_cases hjx : j = x.idx
      · have hjy : ¬(j = y.idx) := fun hh => h (hjx.symm.trans hh)
        simp only [if_pos hjx, if_neg hjy, ite_self]
      · simp only [if_neg hjx, ite_self]
    · show z.successCount + _ + _ = z.successCount + _ + _
      omega
    · show z.failedCount + _ + _ = z.failedCount + _ + _
      omega
    · show z.skippedCount + _ + _ = z.skippedCount + _ + _
      omega
  · rfl

lemma transcribeDictStep_comm (d : Nat → Option (List String))
    (x y : Nat × List String) (h : x.1 ≠ y.1 ∨ x = y) :
    transcribeDictStep (transcribeDictStep d x) y
      = transcribeDictStep (transcribeDictStep d y) x := by
  rcases h with h | rfl
  · funext k
    show (if k = y.1 then some y.2
        else if k = x.1 then some x.2 else d k)
      = (if k = x.1 then some x.2
        else if k = y.1 then some y.2 else d k)
    by_cases hx : k = x.1
    · have hy : ¬(k = y.1) := fun hh => h (hx.symm.trans hh)
      rw [if_neg hy, if_pos hx, if_pos hx]
    · by_cases hy : k = y.1
      · rw [if_pos hy, if_neg hx, if_pos hy]
      · rw [if_neg hy, if_neg hx, if_neg hx, if_neg hy]
  · rfl

lemma summarizeCollect_comm (z : SummarizeAgg) (x y : SummarizeResult)
    (h : x.idx ≠ y.idx ∨ x = y) :
    summarizeCollect (summarizeCollect z x) y
      = summarizeCollect (summarizeCollect z y) x := by
  rcases h with h | rfl
  · refine SummarizeAgg.ext ?_ ?_ ?_
    · show (if y.success then
          (if x.success then z.summaries.set x.idx x.text
           else z.summaries).set y.idx y.text
        else if x.success then z.summaries.set x.idx x.text
          else z.summaries)
        = (if x.success then
            (if y.success then z.summaries.set y.idx y.text
             else z.summaries).set x.idx x.text
          else if y.success then z.summaries.set y.idx y.text
            else z.summaries)
      by_cases hx : x.success <;> by_cases hy : y.success <;>
        simp [hx, hy, List.set_comm _ _ _ h]
    · show z.successCount + _ + _ = z.successCount + _ + _
      omega
    · show z.failedCount + _ + _ = z.failedCount + _ + _
      omega
  · rfl

lemma summarizeCollect_failedCount (rs : List SummarizeResult)
    (st : SummarizeAgg) :
    (rs.foldl summarizeCollect st).failedCount
      = st.failedCount + rs.countP (fun r => !r.success) := by
  induction rs generalizing st with
  | nil => simp
  | cons r rest ih =>
    rw [List.foldl_cons, ih]
    simp only [summarizeCollect, List.countP_cons]
    cases hr : r.success with
    | false => simp [hr]; omega
    | true => simp [hr]

lemma summarizeCollect_summaries (rs : List SummarizeResult)
    (st : SummarizeAgg) :
    (rs.foldl summarizeCollect st).summaries
      = ((rs.filter (fun r => r.success)).map (fun r => (r.idx, r.text))).foldl
          (fun out pr => out.set pr.1 pr.2) st.summaries := by
  induction rs generalizing st with
  | nil => rfl
  | cons r rest ih =>
    rw [List.foldl_cons, ih]
    cases hr : r.success with
    | false =>
      have hs : (summarizeCollect st r).summaries = st.summaries := by
        simp [summarizeCollect, hr]
      rw [hs, List.filter_cons_of_neg (by simp [hr])]
    | true =>
      have hs : (summarizeCollect st r).summaries
          = st.summaries.set r.idx r.text := by
        simp [summarizeCollect, hr]
      rw [hs, List.filter_cons_of_pos (by simp [hr]), List.map_cons,
        List.foldl_cons]

lemma mem_summarizeArrivals (n : Nat) (skipped : Nat → Bool)
    (ok : Nat → Bool) (txt : Nat → String) (r : SummarizeResult)
    (h : r ∈ summarizeArrivals n skipped ok txt) :
    r.success = ok r.idx ∧ r.text = txt r.idx ∧ r.idx < n
      ∧ skipped r.idx = false := by
  rw [summarizeArrivals] at h
  obtain ⟨j, hj, rfl⟩ := List.mem_map.mp h
  rw [List.mem_filter, List.mem_range] at hj
  exact ⟨rfl, rfl, hj.1, by simpa using hj.2⟩

lemma transcribeSaveStep_failed (skipped : Nat → Bool)
    (resultOf : Nat → String) (writeOk : Nat → Bool) :
    ∀ (l : List Nat) (c : Nat × Nat),
      (l.foldl (transcribeSaveStep skipped resultOf writeOk) c).2
        = c.2 + (l.filter (fun j =>
            !skipped j && (isBlank (resultOf j) || !writeOk j))).length := by
  intro l
  induction l with
  | nil => intro c; rfl
  | cons idx rest ih =>
    intro c
    rw [List.foldl_cons, ih]
    have hstep : transcribeSaveStep skipped resultOf writeOk c idx
        = if skipped idx then c
          else if isBlank (resultOf idx) then (c.1, c.2 + 1)
          else if writeOk idx then (c.1 + 1, c.2)
          else (c.1, c.2 + 1) := rfl
    by_cases h1 : skipped idx = true
    · rw [List.filter_cons_of_neg (by simp [h1]), hstep, if_pos h1]
    · by_cases h2 : isBlank (resultOf idx) = true
      · rw [List.filter_cons_of_pos (by simp [h1, h2]), hstep, if_neg h1,
          if_pos h2, List.length_cons]
        show c.2 + 1 + _ = c.2 + (_ + 1)
        omega
      · by_cases h3 : writeOk idx = true
        · rw [List.filter_cons_of_neg (by simp [h1, h2, h3]), hstep,
            if_neg h1, if_neg h2, if_pos h3]
        · rw [List.filter_cons_of_pos (by simp [h1, h2, h3]), hstep,
            if_neg h1, if_neg h2, if_neg h3, List.length_cons]
          show c.2 + 1 + _ = c.2 + (_ + 1)
          omega

lemma transcribeOutputList_get (textDir : String) (urlList : List String)
    (skipped : Nat → Bool) (resultOf : Nat → String) (writeOk : Nat → Bool)
    (i : Nat) (hi : i < urlList.length) :
    (transcribeOutputList textDir urlList skipped resultOf writeOk)[i]?
      = some (if skipped i then textDir ++ "/" ++ textFilename i
          else if isBlank (resultOf i) then ""
          else if writeOk i then textDir ++ "/" ++ textFilename i else "") := by
  rw [transcribeOutputList, List.getElem?_map, List.getElem?_range hi]
  rfl

lemma summarizeOutputList_get (summaryDir : String) (textPaths : List String)
    (skipped : Nat → Bool) (summaryOf : Nat → String) (writeOk : Nat → Bool)
    (i : Nat) (hi : i < textPaths.length) :
    (summarizeOutputList summaryDir textPaths skipped summaryOf writeOk)[i]?
      = some (if skipped i then summaryDir ++ "/" ++ summaryFilename i
          else if isBlank (summaryOf i) then ""
          else if writeOk i then summaryDir ++ "/" ++ summaryFilename i
          else "") := by
  rw [summarizeOutputList, List.getElem?_map, List.getElem?_range hi]
  rfl

/-! ## C1: resumability -/

/-- C1: with the intermediates directory present and a checkpoint value
k read at start, `summarize()` invokes no stage processor with ordinal
at most k and (when the remaining processors succeed) invokes exactly
the stages with ordinal above k; moreover for every consecutive stage
pair the later stage's constructor reads the very intermediate JSON file
the earlier stage's constructor writes. -/
theorem resumability_skips_completed_stages (cfg : RunConfig) (k : Nat)
    (hk : cfg.checkpoint0 = k) (hk5 : k ≤ 5) (hi : cfg.intermExists = true)
    (hs : ∀ n, cfg.stageSuccess n = true) :
    (summarizeRun cfg).stagesRun
        = (List.range' 1 5).filter (fun n => decide (k < n))
      ∧ ∀ m, 1 ≤ m → m ≤ 4 → stageInputFile (m + 1) = stageOutputFile m := by
  constructor
  · interval_cases k <;>
      simp_all [summarizeRun, initState, stageStep, List.range']
  · intro m h1 h4; interval_cases m <;> rfl

/-- Witness for C1 at checkpoint 3: only stages 4 and 5 run. -/
theorem resumability_witness :
    (summarizeRun ⟨3, true, fun _ => true⟩).stagesRun
      = (List.range' 1 5).filter (fun n => decide (3 < n)) :=
  (resumability_skips_completed_stages ⟨3, true, fun _ => true⟩ 3 rfl
    (by decide) rfl (fun _ => rfl)).1

/-! ## C9: checkpoint monotonicity (corrected) -/

/-- C9 counterexample: with `checkpoint.txt` holding 3 but the
intermediates directory missing, initialization writes 0 — a write
strictly below the previously persisted value, so the persisted
checkpoint sequence is not non-decreasing. -/
theorem checkpoint_reset_on_missing_intermediates :
    nondecreasing
      ((3 : Nat) :: (summarizeRun ⟨3, false, fun _ => true⟩).writes) = false := by
  decide

/-- C9 amended: provided the intermediates directory is present (or the
persisted checkpoint is 0 — a fresh start) and the persisted checkpoint
is one of the values the orchestrator itself can write (at most 6), the
sequence of persisted checkpoint values over a whole invocation never
decreases. -/
theorem checkpoint_monotone_with_intermediates (cfg : RunConfig)
    (h6 : cfg.checkpoint0 ≤ 6)
    (hi : cfg.intermExists = true ∨ cfg.checkpoint0 = 0) :
    nondecreasing (cfg.checkpoint0 :: (summarizeRun cfg).writes) = true := by
  have h0 := initState_invariant cfg h6 hi
  have hinv : orchInv cfg.checkpoint0
      ((List.range' 1 5).foldl (stageStep cfg.stageSuccess) (initState cfg)) := by
    rw [show List.range' 1 5 = [1, 2, 3, 4, 5] from rfl]
    simp only [List.foldl_cons, List.foldl_nil]
    exact stageStep_preserves _ _ _ 5 (by omega)
      (stageStep_preserves _ _ _ 4 (by omega)
        (stageStep_preserves _ _ _ 3 (by omega)
          (stageStep_preserves _ _ _ 2 (by omega)
            (stageStep_preserves _ _ _ 1 (by omega) h0))))
  obtain ⟨hnd, hlast, hcp⟩ := hinv
  show nondecreasing (cfg.checkpoint0 ::
    (if ((List.range' 1 5).foldl (stageStep cfg.stageSuccess)
          (initState cfg)).exitCode.isSome = true then
       ((List.range' 1 5).foldl (stageStep cfg.stageSuccess) (initState cfg))
     else
       { ((List.range' 1 5).foldl (stageStep cfg.stageSuccess) (initState cfg))
          with writes :=
            ((List.range' 1 5).foldl (stageStep cfg.stageSuccess)
              (initState cfg)).writes ++ [STEP_COMPLETE] }).writes) = true
  split_ifs with he
  · exact hnd
  · show nondecreasing (cfg.checkpoint0 ::
      (((List.range' 1 5).foldl (stageStep cfg.stageSuccess)
          (initState cfg)).writes ++ [STEP_COMPLETE])) = true
    rw [show cfg.checkpoint0 ::
          (((List.range' 1 5).foldl (stageStep cfg.stageSuccess)
              (initState cfg)).writes ++ [STEP_COMPLETE])
          = (cfg.checkpoint0 ::
              ((List.range' 1 5).foldl (stageStep cfg.stageSuccess)
                (initState cfg)).writes) ++ [STEP_COMPLETE] from rfl,
      nondecreasing_snoc]
    simp only [hnd, Bool.true_and, decide_eq_true_eq, STEP_COMPLETE]
    omega

/-- Witness for C9 at checkpoint 2 with intermediates present. -/
theorem checkpoint_monotone_witness :
    nondecreasing
      ((2 : Nat) :: (summarizeRun ⟨2, true, fun _ => true⟩).writes) = true :=
  checkpoint_monotone_with_intermediates ⟨2, true, fun _ => true⟩ (by decide)
    (Or.inl rfl)

/-! ## C4: stage-level failure atomicity -/

/-- C4: starting from checkpoint k with the intermediates present, if
the stages strictly between k and j succeed and the stage-j processor
returns False, `summarize()` exits with code 1, the persisted checkpoint
equals j - 1 (the last fully completed stage), and any later invocation
that reads checkpoint j - 1 attempts stage j first. -/
theorem stage_failure_halts_without_advancing_checkpoint (cfg : RunConfig)
    (k j : Nat) (hk : cfg.checkpoint0 = k) (hi : cfg.intermExists = true)
    (hkj : k < j) (hj5 : j ≤ 5)
    (hs : ∀ n, k < n → n < j → cfg.stageSuccess n = true)
    (hf : cfg.stageSuccess j = false) :
    (summarizeRun cfg).exitCode = some 1
      ∧ persistedAfter cfg = j - 1
      ∧ ∀ cfg' : RunConfig, cfg'.checkpoint0 = j - 1 →
          cfg'.intermExists = true →
          (summarizeRun cfg').stagesRun.headD 0 = j := by
  refine ⟨?_, ?_, fun cfg' hc' hi' =>
    first_stage_attempted cfg' j (by omega) hj5 hc' hi'⟩
  all_goals {
    have h1 := hs 1
    have h2 := hs 2
    have h3 := hs 3
    have h4 := hs 4
    obtain ⟨c0, ie, f⟩ := cfg
    simp only at hk hi hf h1 h2 h3 h4 ⊢
    subst hk
    subst hi
    interval_cases j <;> interval_cases c0 <;>
      simp_all [summarizeRun, initState, stageStep, persistedAfter,
        List.range', STEP_COMPLETE]
  }

/-- Witness for C4: checkpoint 1, stage 2 succeeds, stage 3 fails. -/
theorem stage_failure_witness :
    (summarizeRun ⟨1, true, fun n => decide (n ≠ 3)⟩).exitCode = some 1
      ∧ persistedAfter ⟨1, true, fun n => decide (n ≠ 3)⟩ = 2 := by
  have h := stage_failure_halts_without_advancing_checkpoint
    ⟨1, true, fun n => decide (n ≠ 3)⟩ 1 3 rfl rfl (by decide) (by decide)
    (fun n hn1 hn2 => by interval_cases n; rfl) (by decide)
  exact ⟨h.1, h.2.1⟩

/-! ## C10: empty discovery halts the run -/

/-- C10: when the directory scan yields zero files (all candidates
unsupported or filtered out by the size/duration limits),
`find_and_save` returns False without writing the output JSON, and the
orchestrator — whose stage-1 success is that return value — exits with
code 1 even though no I/O error occurred (`saveOk` is arbitrary). -/
theorem empty_discover_halts_run (cfg : FinderCfg) (files : List ScanFile)
    (saveOk : Bool) (ocfg : RunConfig)
    (hscan : scanAudioFiles cfg files = [])
    (hcp : ocfg.checkpoint0 = 0)
    (hstage : ocfg.stageSuccess 1 = (find_and_save cfg files saveOk).1) :
    find_and_save cfg files saveOk = (false, false)
      ∧ (summarizeRun ocfg).exitCode = some 1 := by
  have hfs : find_and_save cfg files saveOk = (false, false) := by
    simp [find_and_save, hscan]
  refine ⟨hfs, ?_⟩
  have h1 : ocfg.stageSuccess 1 = false := by rw [hstage, hfs]
  obtain ⟨c0, ie, f⟩ := ocfg
  simp only at hcp h1
  subst hcp
  simp_all [summarizeRun, initState, stageStep, List.range']

/-- Witness for C10: a single .mp4 candidate dropped by a 1 MB size
limit; the scan is empty and the run aborts. -/
theorem empty_discover_witness :
    find_and_save ⟨some 1, none⟩ [⟨"/a/b.mp4", ".mp4", 5, none⟩] true
        = (false, false)
      ∧ (summarizeRun ⟨0, true, fun n => decide (n ≠ 1)⟩).exitCode = some 1 :=
  empty_discover_halts_run ⟨some 1, none⟩ [⟨"/a/b.mp4", ".mp4", 5, none⟩] true
    ⟨0, true, fun n => decide (n ≠ 1)⟩ (by decide) rfl (by decide)

/-! ## C3: index preservation on load (corrected) -/

/-- C3 counterexample: loading `["", "a"]` compacts the list, so the
entry whose original index is 1 is no longer addressable as item 1 —
it moves to index 0 and its upload artifact is keyed `audios/001.mp3`,
not `audios/002.mp3`. -/
theorem load_compacts_dropping_original_index :
    loadFilter ["", "a"] = ["a"]
      ∧ (loadFilter ["", "a"])[1]? ≠ some "a"
      ∧ ossObjectName (newIndex ["", "a"] 1) ".mp3" = "audios/001.mp3" := by
  refine ⟨rfl, by decide, rfl⟩

/-- C3 amended: loading drops blank entries and compacts the list: a
retained entry whose original index is i moves to index
`newIndex xs i` — the number of non-blank entries before it, at most
i — and the stage's output artifact is keyed from that new index plus
one, zero-padded. -/
theorem load_reindexes_retained_entries (xs : List String) (i : Nat)
    (h : i < xs.length) (hb : isBlank (xs.getD i "") = false) :
    (loadFilter xs)[newIndex xs i]? = some (xs.getD i "")
      ∧ newIndex xs i ≤ i
      ∧ ∀ ext, ossObjectName (newIndex xs i) ext
          = "audios/" ++ zeroPad3 (newIndex xs i + 1) ++ ext :=
  ⟨loadFilter_getD xs i h hb, newIndex_le xs i, fun _ => rfl⟩

/-- Witness for C3 amended at `["", " ", "a"]`, original index 2. -/
theorem load_reindexes_witness :
    (loadFilter ["", " ", "a"])[newIndex ["", " ", "a"] 2]? = some "a" :=
  (load_reindexes_retained_entries ["", " ", "a"] 2 (by decide) (by decide)).1

/-! ## C2: length invariant (corrected) -/

/-- C2 counterexample: the ExtractAudio stage given the persisted input
list `["a.mp4", ""]` (length 2) persists an output list of length 1: its
load step drops the blank entry before processing. -/
theorem stage_output_shorter_on_blank_input :
    ((process_videos (some ["a.mp4", ""])
        (fun _ => ⟨false, true, false, false, true, false, true, true⟩)
        "audios" true).2.map List.length) = some 1
      ∧ (["a.mp4", ""] : List String).length = 2 := by
  constructor
  · rfl
  · rfl

/-- C2 amended: every stage persists an output list whose length equals
the number of non-blank entries of the input list it read (the loaded
list); in particular the lengths agree exactly when the input contains
no blank entries. -/
theorem stage_output_length_eq_filtered_input (input : List String)
    (envE : Nat → ExtractEnv) (audioDir : String)
    (arrivals : List UploadResult) (textDir summaryDir : String)
    (skippedT skippedS : Nat → Bool) (resultOf summaryOf : Nat → String)
    (writeOkT writeOkS : Nat → Bool)
    (hne : loadFilter input ≠ []) :
    ((process_videos (some input) envE audioDir true).2.map List.length
        = some (loadFilter input).length)
      ∧ ((upload_files (some input) arrivals true).2.map List.length
        = some (loadFilter input).length)
      ∧ ((transcribe_audio (some input) textDir skippedT resultOf
            writeOkT true).2.map List.length
        = some (loadFilter input).length)
      ∧ ((summarize_texts (some input) summaryDir skippedS summaryOf
            writeOkS true).2.map List.length
        = some (loadFilter input).length)
      ∧ ((∀ s ∈ input, isBlank s = false)
          → (loadFilter input).length = input.length) := by
  have hempty : (loadFilter input).isEmpty = false := by
    cases hl : loadFilter input with
    | nil => exact absurd hl hne
    | cons a l => rfl
  refine ⟨?_, ?_, ?_, ?_, ?_⟩
  · simp [process_videos, load_video_list, extractOutputList]
  · simp only [upload_files, load_file_list, hempty, Bool.false_eq_true,
      if_false, if_true, uploadAggFrom]
    simp [foldl_uploadCollect_length]
  · simp [transcribe_audio, load_file_list, hempty, transcribeOutputList]
  · simp [summarize_texts, load_file_list, hempty, summarizeOutputList]
  · intro hall
    unfold loadFilter
    rw [List.filter_eq_self.mpr (fun a ha => by simp [hall a ha])]

/-- Witness for C2 amended at `["a", "", "b"]`: the extractor's output
has length 2. -/
theorem stage_output_length_witness :
    ((process_videos (some ["a", "", "b"])
        (fun _ => ⟨false, true, false, false, true, false, true, true⟩)
        "audios" true).2.map List.length = some 2) :=
  (stage_output_length_eq_filtered_input ["a", "", "b"]
    (fun _ => ⟨false, true, false, false, true, false, true, true⟩) "audios"
    [] "texts" "sums" (fun _ => false) (fun _ => false) (fun _ => "t")
    (fun _ => "s") (fun _ => true) (fun _ => true) (by decide)).1

/-! ## C5: per-item failure containment -/

/-- C5: in every stage (extract, upload, transcribe, summarize), an
item whose external per-item operation fails — including an API error —
ends up as the empty string in the persisted output list, is counted by
that stage's failure counter (which equals the number of failed items),
leaves every other item's slot determined by that item's own result,
and the stage processor still returns True whenever its load and output
write succeed. -/
theorem per_item_failure_contained :
    (∀ (vp : List String) (env : Nat → ExtractEnv) (audioDir : String)
        (i : Nat), i < vp.length →
      (extract_audio (env i) i (vp.getD i "") audioDir).success = false →
      (extractOutputList vp.length
          (extractAggOf vp env audioDir).extractedMap)[i]? = some ""
        ∧ (extractAggOf vp env audioDir).failedCount
          = ((List.range vp.length).filter (fun j =>
              !(extract_audio (env j) j (vp.getD j "") audioDir).success)).length
        ∧ (∀ j, j < vp.length →
            (extract_audio (env j) j (vp.getD j "") audioDir).success = true →
            (extract_audio (env j) j (vp.getD j "") audioDir).audioPath ≠ "" →
            (extractOutputList vp.length
                (extractAggOf vp env audioDir).extractedMap)[j]?
              = some (extract_audio (env j) j (vp.getD j "") audioDir).audioPath)
        ∧ ∀ raw, load_video_list raw = some vp →
            (process_videos raw env audioDir true).1 = true)
  ∧ (∀ (n : Nat) (uenv : Nat → UploadEnv) (i : Nat), i < n →
      (upload_single_file (uenv i) i).success = false →
      (uploadAggFrom n ((List.range n).map
          (fun j => upload_single_file (uenv j) j))).uploadedUrls[i]? = some ""
        ∧ (uploadAggFrom n ((List.range n).map
            (fun j => upload_single_file (uenv j) j))).failedCount
          = ((List.range n).filter (fun j =>
              !(upload_single_file (uenv j) j).success)).length
        ∧ (∀ j, j < n → (upload_single_file (uenv j) j).success = true →
            (uploadAggFrom n ((List.range n).map
                (fun m => upload_single_file (uenv m) m))).uploadedUrls[j]?
              = some (upload_single_file (uenv j) j).url)
        ∧ ∀ raw arrivals, load_file_list raw ≠ [] →
            (upload_files raw arrivals true).1 = true)
  ∧ (∀ (textDir : String) (urlList : List String) (skipped : Nat → Bool)
        (resultOf : Nat → String) (writeOk : Nat → Bool) (i : Nat),
      i < urlList.length → skipped i = false →
      (isBlank (resultOf i) = true ∨ writeOk i = false) →
      (transcribeOutputList textDir urlList skipped resultOf writeOk)[i]?
          = some ""
        ∧ (transcribeCounters urlList.length skipped resultOf writeOk).2
          = ((List.range urlList.length).filter (fun j =>
              !skipped j && (isBlank (resultOf j) || !writeOk j))).length
        ∧ (∀ j, j < urlList.length → skipped j = false →
            isBlank (resultOf j) = false → writeOk j = true →
            (transcribeOutputList textDir urlList skipped resultOf writeOk)[j]?
              = some (textDir ++ "/" ++ textFilename j))
        ∧ ∀ raw, load_file_list raw ≠ [] →
            (transcribe_audio raw textDir skipped resultOf writeOk true).1
              = true)
  ∧ (∀ (summaryDir : String) (textPaths : List String) (skipped : Nat → Bool)
        (ok : Nat → Bool) (txt : Nat → String) (writeOk : Nat → Bool)
        (i : Nat), i < textPaths.length → skipped i = false → ok i = false →
      (summarizeOutputList summaryDir textPaths skipped
          (fun idx => (summarizeAggFrom textPaths.length
            (summarizeArrivals textPaths.length skipped ok
              txt)).summaries.getD idx "") writeOk)[i]? = some ""
        ∧ (summarizeAggFrom textPaths.length
            (summarizeArrivals textPaths.length skipped ok txt)).failedCount
          = ((List.range textPaths.length).filter (fun j =>
              !(ok j) && !skipped j)).length
        ∧ (∀ j, j < textPaths.length → skipped j = false → ok j = true →
            isBlank (txt j) = false → writeOk j = true →
            (summarizeOutputList summaryDir textPaths skipped
                (fun idx => (summarizeAggFrom textPaths.length
                  (summarizeArrivals textPaths.length skipped ok
                    txt)).summaries.getD idx "") writeOk)[j]?
              = some (summaryDir ++ "/" ++ summaryFilename j))
        ∧ ∀ raw sOf, load_file_list raw ≠ [] →
            (summarize_texts raw summaryDir skipped sOf writeOk true).1
              = true) := by
  refine ⟨?_, ?_, ?_, ?_⟩
  · intro vp env audioDir i hi hfail
    have hmap := foldl_extractCollect_map
      (fun j => extract_audio (env j) j (vp.getD j "") audioDir)
      (fun j => extract_audio_idx (env j) j (vp.getD j "") audioDir)
    have hagg : ∀ m, (extractAggOf vp env audioDir).extractedMap m
        = if 0 ≤ m ∧ m < 0 + vp.length
              ∧ ((extract_audio (env m) m (vp.getD m "") audioDir).success
                && !((extract_audio (env m) m (vp.getD m "") audioDir).audioPath
                      == "")) = true
          then some (extract_audio (env m) m (vp.getD m "") audioDir).audioPath
          else none := by
      intro m
      have := hmap vp.length 0 initExtractAgg m
      rw [← List.range_eq_range'] at this
      exact this
    refine ⟨?_, ?_, ?_, ?_⟩
    · rw [extractOutputList, List.getElem?_map, List.getElem?_range hi]
      simp only [Option.map_some']
      rw [hagg i, if_neg (by rintro ⟨_, _, hc⟩; rw [hfail] at hc; simp at hc)]
      rfl
    · rw [extractAggOf, foldl_extractCollect_failedCount, extractResults,
        List.countP_map, List.countP_eq_length_filter]
      show 0 + _ = _
      rw [Nat.zero_add]
      rfl
    · intro j hj hsucc hpath
      rw [extractOutputList, List.getElem?_map, List.getElem?_range hj]
      simp only [Option.map_some']
      rw [hagg j, if_pos ⟨by omega, by omega,
        by rw [hsucc, beq_eq_false_iff_ne.mpr hpath]; rfl⟩]
      rfl
    · intro raw hraw
      simp [process_videos, hraw]
  · intro n uenv i hi hfail
    have hg : ∀ j, (upload_single_file (uenv j) j).idx = j :=
      fun j => upload_single_file_idx (uenv j) j
    have hget : ∀ m, m < n →
        (uploadAggFrom n ((List.range n).map
            (fun j => upload_single_file (uenv j) j))).uploadedUrls[m]?
          = if (upload_single_file (uenv m) m).success = true
              then some (upload_single_file (uenv m) m).url
              else some "" := by
      intro m hm
      have h0 := foldl_uploadCollect_get
        (fun j => upload_single_file (uenv j) j) hg n 0
        ⟨List.replicate n "", 0, 0, 0⟩ m (by simpa using hm)
      rw [← List.range_eq_range'] at h0
      rw [uploadAggFrom]
      show (((List.range n).map (fun j => upload_single_file (uenv j) j)).foldl
        uploadCollect ⟨List.replicate n "", 0, 0, 0⟩).uploadedUrls[m]? = _
      rw [h0, if_pos ⟨Nat.zero_le m, by omega⟩]
      by_cases hs : (upload_single_file (uenv m) m).success = true
      · rw [if_pos hs, if_pos hs]
      · rw [if_neg hs, if_neg hs]
        show (List.replicate n "")[m]? = some ""
        rw [List.getElem?_replicate, if_pos hm]
    refine ⟨?_, ?_, ?_, ?_⟩
    · rw [hget i hi, if_neg (by simp [hfail])]
    · rw [uploadAggFrom, foldl_uploadCollect_failedCount, List.countP_map,
        List.countP_eq_length_filter]
      show 0 + _ = _
      rw [Nat.zero_add]
      rfl
    · intro j hj hsucc
      rw [hget j hj, if_pos hsucc]
    · intro raw arrivals hraw
      cases hfl : load_file_list raw with
      | nil => exact absurd hfl hraw
      | cons a as => simp [upload_files, hfl]
  · intro textDir urlList skipped resultOf writeOk i hi hsk hfail
    refine ⟨?_, ?_, ?_, ?_⟩
    · rw [transcribeOutputList_get textDir urlList skipped resultOf writeOk
        i hi, hsk]
      rcases hfail with hbl | hwf
      · rw [if_neg (by simp), if_pos hbl]
      · rw [if_neg (by simp)]
        by_cases hbl : isBlank (resultOf i) = true
        · rw [if_pos hbl]
        · rw [if_neg hbl, hwf, if_neg (by simp)]
    · rw [transcribeCounters, transcribeSaveStep_failed]
      show 0 + _ = _
      rw [Nat.zero_add]
    · intro j hj hskj hbl hwj
      rw [transcribeOutputList_get textDir urlList skipped resultOf writeOk
        j hj, hskj, if_neg (by simp), if_neg (by simp [hbl]), if_pos hwj]
    · intro raw hraw
      cases hfl : load_file_list raw with
      | nil => exact absurd hfl hraw
      | cons a as => simp [transcribe_audio, hfl]
  · intro summaryDir textPaths skipped ok txt writeOk i hi hsk hok
    have hsummaries := summarizeCollect_summaries
      (summarizeArrivals textPaths.length skipped ok txt)
      ⟨List.replicate textPaths.length "", 0, 0⟩
    have harrkeys : ((summarizeArrivals textPaths.length skipped ok txt).map
        (fun r => r.idx))
        = (List.range textPaths.length).filter (fun idx => !skipped idx) := by
      rw [summarizeArrivals, List.map_map]
      exact List.map_id'' (fun x => rfl) _
    refine ⟨?_, ?_, ?_, ?_⟩
    · have hget : (summarizeAggFrom textPaths.length
          (summarizeArrivals textPaths.length skipped ok
            txt)).summaries.getD i "" = "" := by
        have hPne : ∀ pr ∈ ((summarizeArrivals textPaths.length skipped ok
            txt).filter (fun r => r.success)).map (fun r => (r.idx, r.text)),
            pr.1 ≠ i := by
          intro pr hpr
          obtain ⟨r, hr, rfl⟩ := List.mem_map.mp hpr
          rw [List.mem_filter] at hr
          obtain ⟨hrs, _, _, _⟩ :=
            mem_summarizeArrivals textPaths.length skipped ok txt r hr.1
          intro hEq
          have hEq2 : r.idx = i := hEq
          have hsucc : r.success = true := hr.2
          rw [hrs, hEq2, hok] at hsucc
          exact Bool.false_ne_true hsucc
        rw [List.getD_eq_getElem?_getD, summarizeAggFrom, hsummaries,
          setFold_get_not_mem _ _ i hPne]
        show ((List.replicate textPaths.length "")[i]?).getD "" = ""
        rw [List.getElem?_replicate, if_pos hi]
        rfl
      rw [summarizeOutputList_get summaryDir textPaths skipped _ writeOk i hi,
        hsk, if_neg (by simp), hget,
        if_pos (show isBlank "" = true from rfl)]
    · rw [summarizeAggFrom, summarizeCollect_failedCount, summarizeArrivals,
        List.countP_map, List.countP_filter, List.countP_eq_length_filter]
      show 0 + _ = _
      rw [Nat.zero_add]
      rfl
    · intro j hj hskj hokj hbl hwj
      have hPnd : ((((summarizeArrivals textPaths.length skipped ok txt).filter
          (fun r => r.success)).map (fun r => (r.idx, r.text))).map
          Prod.fst).Nodup := by
        rw [List.map_map]
        have hsub : (((summarizeArrivals textPaths.length skipped ok
            txt).filter (fun r => r.success)).map (fun r => r.idx)).Sublist
            ((summarizeArrivals textPaths.length skipped ok txt).map
              (fun r => r.idx)) :=
          List.Sublist.map _ (List.filter_sublist _)
        have hnd : ((summarizeArrivals textPaths.length skipped ok txt).map
            (fun r => r.idx)).Nodup := by
          rw [harrkeys]
          exact List.Nodup.filter _ (List.nodup_range _)
        exact List.Nodup.sublist hsub hnd
      have hmemP : (j, txt j) ∈ ((summarizeArrivals textPaths.length skipped
          ok txt).filter (fun r => r.success)).map (fun r => (r.idx, r.text)) := by
        refine List.mem_map.mpr
          ⟨⟨j, ok j, txt j⟩, List.mem_filter.mpr ⟨?_, ?_⟩, rfl⟩
        · rw [summarizeArrivals]
          refine List.mem_map.mpr ⟨j, ?_, rfl⟩
          rw [List.mem_filter, List.mem_range]
          refine ⟨hj, ?_⟩
          show (!skipped j) = true
          rw [hskj]
          rfl
        · exact hokj
      have hgetj : (summarizeAggFrom textPaths.length
          (summarizeArrivals textPaths.length skipped ok
            txt)).summaries.getD j "" = txt j := by
        rw [List.getD_eq_getElem?_getD, summarizeAggFrom, hsummaries,
          setFold_get_mem _ _ j (txt j) hPnd hmemP
            (show j < (List.replicate textPaths.length "").length by
              rw [List.length_replicate]; exact hj)]
        rfl
      rw [summarizeOutputList_get summaryDir textPaths skipped _ writeOk j hj,
        hskj, if_neg (by simp), hgetj, if_neg (by simp [hbl]), if_pos hwj]
    · intro raw sOf hraw
      cases hfl : load_file_list raw with
      | nil => exact absurd hfl hraw
      | cons a as => simp [summarize_texts, hfl]

/-- Witness for C5: in the extract stage item 0 times out and item 1
extracts, so slot 0 is empty and the failure counter is 1; in the upload
stage item 0's local file is missing, so slot 0 of the URL list stays
empty. -/
theorem per_item_failure_witness :
    ((extractOutputList (["a.mp4", "b.mp4"] : List String).length
        (extractAggOf ["a.mp4", "b.mp4"]
          (fun j => if j = 0
            then ⟨false, true, false, false, true, true, true, true⟩
            else ⟨false, true, false, false, true, false, true, true⟩)
          "audios").extractedMap)[0]? = some ""
      ∧ (extractAggOf ["a.mp4", "b.mp4"]
          (fun j => if j = 0
            then ⟨false, true, false, false, true, true, true, true⟩
            else ⟨false, true, false, false, true, false, true, true⟩)
          "audios").failedCount = 1)
      ∧ (uploadAggFrom 2 ((List.range 2).map (fun j => upload_single_file
          (if j = 0 then ⟨false, false, false, false, true, "u0"⟩
            else ⟨true, false, false, false, true, "u1"⟩) j))).uploadedUrls[0]?
        = some "" := by
  have h := per_item_failure_contained
  have hex := h.1 ["a.mp4", "b.mp4"]
    (fun j => if j = 0
      then ⟨false, true, false, false, true, true, true, true⟩
      else ⟨false, true, false, false, true, false, true, true⟩)
    "audios" 0 (by decide) (by decide)
  have hup := h.2.1 2
    (fun j => if j = 0 then ⟨false, false, false, false, true, "u0"⟩
      else ⟨true, false, false, false, true, "u1"⟩)
    0 (by decide) (by decide)
  refine ⟨⟨hex.1, ?_⟩, hup.1⟩
  rw [hex.2.1]
  decide

/-! ## C6: completion-order independence -/

/-- C6: no stage's persisted output depends on the order in which its
worker pool's per-item tasks complete. Extract: folding the collection
loop over any completion order of the per-item results yields the
canonical state, and item i's result sits at output index i. Upload:
any two arrival orders give identical URL lists, with item i's URL at
index i (failed items keep the pre-filled empty string). Transcribe:
the batch-result dictionary, and hence the flattened transcript list,
is the same for every completion order of the batch futures. Summarize:
the collection state (summaries list and counters) is the same for any
two completion orders of the task results. -/
theorem completion_order_independent_output :
    (∀ (vp : List String) (env : Nat → ExtractEnv) (audioDir : String)
        (arr : List ExtractResult),
      arr.Perm (extractResults vp env audioDir) →
      arr.foldl extractCollect initExtractAgg = extractAggOf vp env audioDir
        ∧ ∀ i, i < vp.length →
          (extractOutputList vp.length
              (arr.foldl extractCollect initExtractAgg).extractedMap)[i]?
            = some (if ((extract_audio (env i) i (vp.getD i "")
                    audioDir).success
                  && !((extract_audio (env i) i (vp.getD i "")
                    audioDir).audioPath == "")) = true
                then (extract_audio (env i) i (vp.getD i "") audioDir).audioPath
                else ""))
  ∧ (∀ (n : Nat) (g : Nat → UploadResult), (∀ i, (g i).idx = i) →
      ∀ (arr1 arr2 : List UploadResult),
        arr1.Perm ((List.range n).map g) → arr2.Perm ((List.range n).map g) →
        (uploadAggFrom n arr1).uploadedUrls
            = (uploadAggFrom n arr2).uploadedUrls
          ∧ ∀ i, i < n → (uploadAggFrom n arr1).uploadedUrls[i]?
              = some (if (g i).success = true then (g i).url else ""))
  ∧ (∀ (numBatches : Nat) (g : Nat → List String)
        (arr : List (Nat × List String)),
      arr.Perm ((List.range numBatches).map (fun b => (b, g b))) →
      arr.foldl transcribeDictStep (fun _ => none)
          = ((List.range numBatches).map (fun b => (b, g b))).foldl
              transcribeDictStep (fun _ => none)
        ∧ assembleTranscripts numBatches
            (arr.foldl transcribeDictStep (fun _ => none))
          = assembleTranscripts numBatches
              (((List.range numBatches).map (fun b => (b, g b))).foldl
                transcribeDictStep (fun _ => none)))
  ∧ (∀ (n : Nat) (bs arr1 arr2 : List SummarizeResult),
      (bs.map (fun r => r.idx)).Nodup →
      arr1.Perm bs → arr2.Perm bs →
      summarizeAggFrom n arr1 = summarizeAggFrom n arr2) := by
  refine ⟨?_, ?_, ?_, ?_⟩
  · intro vp env audioDir arr hp
    have heq : arr.foldl extractCollect initExtractAgg
        = extractAggOf vp env audioDir := by
      refine hp.foldl_eq' (fun x hx y hy z => ?_) _
      have hx' := hp.mem_iff.mp hx
      have hy' := hp.mem_iff.mp hy
      rw [extractResults] at hx' hy'
      obtain ⟨i, hi, rfl⟩ := List.mem_map.mp hx'
      obtain ⟨j, hj, rfl⟩ := List.mem_map.mp hy'
      by_cases hij : i = j
      · subst hij
        rfl
      · exact extractCollect_comm z _ _ (Or.inl (by
          rw [extract_audio_idx, extract_audio_idx]
          exact hij))
    refine ⟨heq, fun i hi => ?_⟩
    rw [heq]
    have hmap := foldl_extractCollect_map
      (fun j => extract_audio (env j) j (vp.getD j "") audioDir)
      (fun j => extract_audio_idx (env j) j (vp.getD j "") audioDir)
      vp.length 0 initExtractAgg i
    rw [← List.range_eq_range'] at hmap
    rw [extractOutputList, List.getElem?_map, List.getElem?_range hi]
    simp only [Option.map_some']
    show some (((((List.range vp.length).map
        (fun j => extract_audio (env j) j (vp.getD j "") audioDir)).foldl
        extractCollect initExtractAgg).extractedMap i).getD "") = _
    rw [hmap]
    by_cases hc : ((extract_audio (env i) i (vp.getD i "") audioDir).success
        && !((extract_audio (env i) i (vp.getD i "") audioDir).audioPath
              == "")) = true
    · rw [if_pos ⟨Nat.zero_le i, by omega, hc⟩, if_pos hc]
      rfl
    · rw [if_neg (by rintro ⟨_, _, h3⟩; exact hc h3), if_neg hc]
      rfl
  · intro n g hidx arr1 arr2 h1 h2
    have key : ∀ arr : List UploadResult, arr.Perm ((List.range n).map g) →
        uploadAggFrom n arr = uploadAggFrom n ((List.range n).map g) := by
      intro arr hp
      refine hp.foldl_eq' (fun x hx y hy z => ?_) _
      have hx' := hp.mem_iff.mp hx
      have hy' := hp.mem_iff.mp hy
      obtain ⟨i, hi, rfl⟩ := List.mem_map.mp hx'
      obtain ⟨j, hj, rfl⟩ := List.mem_map.mp hy'
      by_cases hij : i = j
      · subst hij
        rfl
      · exact uploadCollect_comm z (g i) (g j)
          (Or.inl (by rw [hidx i, hidx j]; exact hij))
    constructor
    · rw [key arr1 h1, key arr2 h2]
    · intro i hi
      rw [key arr1 h1]
      have hget := foldl_uploadCollect_get g hidx n 0
        ⟨List.replicate n "", 0, 0, 0⟩ i (by simpa using hi)
      rw [← List.range_eq_range'] at hget
      rw [uploadAggFrom]
      show (((List.range n).map g).foldl uploadCollect
        ⟨List.replicate n "", 0, 0, 0⟩).uploadedUrls[i]? = _
      rw [hget, if_pos ⟨by omega, by omega⟩]
      by_cases hs : (g i).success
      · rw [if_pos hs, if_pos hs]
      · rw [if_neg hs, if_neg hs]
        show (List.replicate n "")[i]? = _
        rw [List.getElem?_replicate, if_pos hi]
  · intro numBatches g arr hp
    have heq : arr.foldl transcribeDictStep (fun _ => none)
        = ((List.range numBatches).map (fun b => (b, g b))).foldl
            transcribeDictStep (fun _ => none) := by
      refine hp.foldl_eq' (fun x hx y hy d => ?_) _
      have hx' := hp.mem_iff.mp hx
      have hy' := hp.mem_iff.mp hy
      obtain ⟨i, hi, rfl⟩ := List.mem_map.mp hx'
      obtain ⟨j, hj, rfl⟩ := List.mem_map.mp hy'
      by_cases hij : i = j
      · subst hij
        rfl
      · exact transcribeDictStep_comm d _ _ (Or.inl hij)
    exact ⟨heq, by rw [heq]⟩
  · intro n bs arr1 arr2 hnd h1 h2
    have key : ∀ arr : List SummarizeResult, arr.Perm bs →
        summarizeAggFrom n arr = summarizeAggFrom n bs := by
      intro arr hp
      refine hp.foldl_eq' (fun x hx y hy z => ?_) _
      have hx' := hp.mem_iff.mp hx
      have hy' := hp.mem_iff.mp hy
      by_cases hxy : x = y
      · subst hxy
        rfl
      · refine summarizeCollect_comm z x y (Or.inl fun hh => hxy ?_)
        exact List.inj_on_of_nodup_map hnd hx' hy' hh
    rw [key arr1 h1, key arr2 h2]

/-- Witness for C6: two uploads arriving in reversed order still land
at their own indices, and one extraction batch consumed in reversed
completion order folds to the canonical collection state. -/
theorem completion_order_witness :
    (uploadAggFrom 2 [uploadDemo 1, uploadDemo 0]).uploadedUrls[0]?
        = some (if (uploadDemo 0).success = true then (uploadDemo 0).url
            else "")
      ∧ ((extractResults ["a.mp4", "b.mp4"]
            (fun _ => ⟨false, true, false, false, true, false, true, true⟩)
            "audios").reverse.foldl extractCollect initExtractAgg
          = extractAggOf ["a.mp4", "b.mp4"]
              (fun _ => ⟨false, true, false, false, true, false, true, true⟩)
              "audios") := by
  have h := completion_order_independent_output
  refine ⟨(h.2.1 2 uploadDemo (fun _ => rfl)
      [uploadDemo 1, uploadDemo 0] ((List.range 2).map uploadDemo)
      (List.Perm.swap _ _ _) (List.Perm.refl _)).2 0 (by omega), ?_⟩
  exact (h.1 ["a.mp4", "b.mp4"]
    (fun _ => ⟨false, true, false, false, true, false, true, true⟩) "audios"
    ((extractResults ["a.mp4", "b.mp4"]
      (fun _ => ⟨false, true, false, false, true, false, true, true⟩)
      "audios").reverse)
    (List.reverse_perm _)).1

/-! ## C8: batch splitting bounds (corrected) -/

/-- C8 counterexample: 6 URLs with 4 processes are split into 3
batches, fewer than min(4, 6) = 4 — the claimed lower bound on the
number of batches fails. -/
theorem batch_count_below_min_processes :
    ¬ (min 4 (["a", "b", "c", "d", "e", "f"] : List String).length
        ≤ (split_urls_into_batches 4 ["a", "b", "c", "d", "e", "f"]).length) := by
  decide

/-- C8 amended: for a non-empty URL list and any process count >= 1,
the batches partition the list contiguously in original order, every
batch is non-empty with at most 100 URLs, and there are at least
ceil(n/100) batches; the claimed lower bound of min(p, n) batches does
not hold in general. -/
theorem batch_splitting_bounds_amended (p : Nat) (urls : List String)
    (_hp : 1 ≤ p) (hne : urls ≠ []) :
    (split_urls_into_batches p urls).flatten = urls
      ∧ (∀ b ∈ split_urls_into_batches p urls, b.length ≤ 100 ∧ b ≠ [])
      ∧ (urls.length + 99) / 100 ≤ (split_urls_into_batches p urls).length := by
  have hn : 1 ≤ urls.length := List.length_pos.mpr hne
  set n := urls.length with hn_def
  set nb := max (min p n) ((n + 100 - 1) / 100) with hnb_def
  set bs := (n + nb - 1) / nb with hbs_def
  have hnb1 : 1 ≤ nb := by
    have : 1 ≤ (n + 100 - 1) / 100 := by
      rw [Nat.le_div_iff_mul_le (by omega)]
      omega
    exact le_trans this (le_max_right _ _)
  have hbs1 : 1 ≤ bs := by
    rw [hbs_def, Nat.le_div_iff_mul_le (by omega)]
    omega
  have hq : n ≤ 100 * ((n + 100 - 1) / 100) := by
    have hdm := Nat.div_add_mod (n + 100 - 1) 100
    have hm : (n + 100 - 1) % 100 < 100 := Nat.mod_lt _ (by omega)
    omega
  have hn100 : n ≤ 100 * nb :=
    le_trans hq (Nat.mul_le_mul_left 100 (le_max_right _ _))
  have hbs100 : bs ≤ 100 := by
    rw [hbs_def, Nat.div_le_iff_le_mul_add_pred (by omega)]
    omega
  have hrw : split_urls_into_batches p urls = chunksGo n bs urls := by
    show chunksOf bs urls = chunksGo n bs urls
    rw [chunksOf, if_neg (by omega)]
  refine ⟨?_, ?_, ?_⟩
  · rw [hrw]
    exact chunksGo_flatten bs hbs1 n urls (le_of_eq hn_def.symm)
  · intro b hb
    rw [hrw] at hb
    have := chunksGo_mem bs hbs1 n urls b hb
    exact ⟨le_trans this.1 hbs100, this.2⟩
  · have hflat : (split_urls_into_batches p urls).flatten = urls := by
      rw [hrw]
      exact chunksGo_flatten bs hbs1 n urls (le_of_eq hn_def.symm)
    have hlen : ((split_urls_into_batches p urls).map List.length).sum = n := by
      rw [← List.length_flatten, hflat]
    have hble : ∀ x ∈ (split_urls_into_batches p urls).map List.length,
        x ≤ 100 := by
      intro x hx
      obtain ⟨b, hb, rfl⟩ := List.mem_map.mp hx
      rw [hrw] at hb
      exact le_trans (chunksGo_mem bs hbs1 n urls b hb).1 hbs100
    have hsum := List.sum_le_card_nsmul
      ((split_urls_into_batches p urls).map List.length) 100 hble
    rw [hlen, List.length_map, smul_eq_mul] at hsum
    rw [Nat.div_le_iff_le_mul_add_pred (by omega)]
    omega

/-- Witness for C8 amended: 3 URLs with 2 processes; the batches
flatten back to the input. -/
theorem batch_splitting_witness :
    (split_urls_into_batches 2 ["a", "b", "c"]).flatten = ["a", "b", "c"] :=
  (batch_splitting_bounds_amended 2 ["a", "b", "c"] (by decide) (by decide)).1

/-! ## C7: batch reassembly -/

/-- C7: when the service returns a batch's SUCCEEDED results in any
order (any permutation of the batch indices), each result is written
back at the index of its originating URL, matched by the filename
embedded in its file_url (assuming the batch's URLs carry distinct,
non-empty filenames and are not substrings of one another); a result
with no identity information (match -1) is placed into the first
still-empty slot. -/
theorem batch_reassembly_by_file_identity (urls : List String)
    (txt : Nat → String) (perm : List Nat)
    (hperm : perm.Perm (List.range urls.length))
    (hfn : ∀ i, i < urls.length →
      extract_filename_from_url (urls.getD i "") ≠ "")
    (hdist : ∀ i, i < urls.length → ∀ k, k < urls.length → i ≠ k →
      extract_filename_from_url (urls.getD i "")
          ≠ extract_filename_from_url (urls.getD k "")
        ∧ strIn (urls.getD i "") (urls.getD k "") = false) :
    (∀ i, i < urls.length →
      (transcribe_batch urls (perm.map (serviceResult urls txt)))[i]?
        = some (txt i))
      ∧ ∀ (t : TranscriptionResult) (results : List String),
          t.subtask_status = "SUCCEEDED" →
          match_transcription_to_url t urls = -1 →
          collectTranscription urls results t
            = (match results.findIdx? (fun r => r == "") with
               | some k => results.set k t.transcript
               | none => results) := by
  constructor
  · intro i hi
    have hmem : ∀ j ∈ perm, j < urls.length := fun j hj =>
      List.mem_range.mp (hperm.mem_iff.mp hj)
    have hmatch : ∀ j ∈ perm,
        match_transcription_to_url (serviceResult urls txt j) urls
          = (j : Int) := fun j hj =>
      match_serviceResult urls txt j (hmem j hj) hfn hdist
    rw [transcribe_batch_service urls txt perm hmem hmatch]
    have hnd : ((perm.map (fun j => (j, txt j))).map Prod.fst).Nodup := by
      rw [List.map_map]
      have : (Prod.fst ∘ fun j => (j, txt j)) = id := by
        funext q
        rfl
      rw [this, List.map_id]
      exact hperm.nodup_iff.mpr (List.nodup_range _)
    refine setFold_get_mem _ _ i (txt i) hnd ?_ (by simp [hi])
    exact List.mem_map_of_mem _ (hperm.mem_iff.mpr (List.mem_range.mpr hi))
  · intro t results hst hm
    simp only [collectTranscription]
    rw [hm, if_pos (show (t.subtask_status == "SUCCEEDED") = true from by
      rw [hst]; rfl)]
    rw [if_neg (show ¬((decide ((0 : Int) ≤ (-1 : Int))
        && decide ((-1 : Int) < (urls.length : Int))) = true) from by simp)]

/-- Witness for C7: five signed URLs whose results arrive reversed
still realign, checked at index 0. -/
theorem batch_reassembly_witness :
    (transcribe_batch
        ["https://oss.example.com/audios/001.mp3?Expires=1",
         "https://oss.example.com/audios/002.mp3?Expires=2",
         "https://oss.example.com/audios/003.mp3?Expires=3",
         "https://oss.example.com/audios/004.mp3?Expires=4",
         "https://oss.example.com/audios/005.mp3?Expires=5"]
        ([4, 3, 2, 1, 0].map (serviceResult
          ["https://oss.example.com/audios/001.mp3?Expires=1",
           "https://oss.example.com/audios/002.mp3?Expires=2",
           "https://oss.example.com/audios/003.mp3?Expires=3",
           "https://oss.example.com/audios/004.mp3?Expires=4",
           "https://oss.example.com/audios/005.mp3?Expires=5"]
          (fun j => "transcript " ++ toString j))))[0]?
      = some ((fun j => "transcript " ++ toString j) 0) :=
  (batch_reassembly_by_file_identity
    ["https://oss.example.com/audios/001.mp3?Expires=1",
     "https://oss.example.com/audios/002.mp3?Expires=2",
     "https://oss.example.com/audios/003.mp3?Expires=3",
     "https://oss.example.com/audios/004.mp3?Expires=4",
     "https://oss.example.com/audios/005.mp3?Expires=5"]
    (fun j => "transcript " ++ toString j) [4, 3, 2, 1, 0]
    (List.reverse_perm (List.range 5)) (by decide) (by decide)).1 0
    (by decide)

end AudioSummarizer
